import Mathlib

/-!
Verification of the supply-chain planning engine.

The JavaScript source is shallowly embedded: JS objects become ordered
association lists (JS object iteration order is insertion order for the
string keys this dataset uses), JS numbers become an explicit type with
NaN and signed infinities over exact rationals, and functions that can
throw return `Except`.  Each definition mirrors one source function;
the theorems at the end settle the specification claims.
-/

namespace SupplyChain

/-- A JavaScript number: an exact rational, one of the signed infinities,
or NaN.  A missing property (`undefined`) coerces to NaN whenever the
source uses it in arithmetic, so lookups that can miss default to `nan`. -/
inductive JNum where
  | num (q : ℚ)
  | posInf
  | negInf
  | nan
deriving DecidableEq, Repr

namespace JNum

/-- JS addition. -/
def add : JNum → JNum → JNum
  | nan, _ => nan
  | _, nan => nan
  | num a, num b => num (a + b)
  | posInf, negInf => nan
  | negInf, posInf => nan
  | posInf, _ => posInf
  | _, posInf => posInf
  | negInf, _ => negInf
  | _, negInf => negInf

/-- JS subtraction. -/
def sub : JNum → JNum → JNum
  | nan, _ => nan
  | _, nan => nan
  | num a, num b => num (a - b)
  | posInf, posInf => nan
  | negInf, negInf => nan
  | posInf, _ => posInf
  | _, posInf => negInf
  | negInf, _ => negInf
  | _, negInf => posInf

/-- JS multiplication. -/
def mul : JNum → JNum → JNum
  | nan, _ => nan
  | _, nan => nan
  | num a, num b => num (a * b)
  | posInf, posInf => posInf
  | posInf, negInf => negInf
  | negInf, posInf => negInf
  | negInf, negInf => posInf
  | posInf, num b => if b = 0 then nan else if 0 < b then posInf else negInf
  | num a, posInf => if a = 0 then nan else if 0 < a then posInf else negInf
  | negInf, num b => if b = 0 then nan else if 0 < b then negInf else posInf
  | num a, negInf => if a = 0 then nan else if 0 < a then negInf else posInf

/-- JS division.  Dividing a nonzero number by zero yields a signed
infinity, `0 / 0` yields NaN: JS never throws on division. -/
def div : JNum → JNum → JNum
  | nan, _ => nan
  | _, nan => nan
  | num a, num b =>
      if b = 0 then (if a = 0 then nan else if 0 < a then posInf else negInf)
      else num (a / b)
  | num _, posInf => num 0
  | num _, negInf => num 0
  | posInf, num b => if 0 ≤ b then posInf else negInf
  | negInf, num b => if 0 ≤ b then negInf else posInf
  | posInf, posInf => nan
  | posInf, negInf => nan
  | negInf, posInf => nan
  | negInf, negInf => nan

/-- JS `<` as a boolean: any comparison with NaN is false. -/
def ltb : JNum → JNum → Bool
  | nan, _ => false
  | _, nan => false
  | num a, num b => decide (a < b)
  | num _, posInf => true
  | negInf, num _ => true
  | negInf, posInf => true
  | _, _ => false

/-- JS `>` as a boolean. -/
def gtb (a b : JNum) : Bool := ltb b a

/-- JS `Math.round`: halves round toward positive infinity. -/
def round : JNum → JNum
  | num q => num ((⌊q + 1/2⌋ : ℤ) : ℚ)
  | posInf => posInf
  | negInf => negInf
  | nan => nan

/-- Rational content of a JS number, `0` for the non-finite values
(only used under hypotheses that exclude them). -/
def toQ : JNum → ℚ
  | num q => q
  | _ => 0

/-- Is this a finite number (not NaN, not an infinity)?  Used to state
the well-formedness hypotheses decidably. -/
def isNum : JNum → Bool
  | num _ => true
  | _ => false

end JNum

/-- A JavaScript value as it occurs in the planning datasets: a string,
a number, or `undefined` (a missing property). -/
inductive JVal where
  | str (s : String)
  | jnum (n : JNum)
  | jsUndefined
deriving DecidableEq, Repr

namespace JVal

/-- Coerce a value to a number the way JS arithmetic does: `undefined`
becomes NaN.  The datasets' value fields are numbers; a string in a
numeric position is outside the fragment modelled here and also maps
to NaN. -/
def toJNum : JVal → JNum
  | jnum n => n
  | _ => JNum.nan

/-- JS loose equality (`==`) restricted to the homogeneous comparisons
the source performs: string against string, number against number
(NaN equal to nothing), `undefined` against `undefined`. -/
def jeq : JVal → JVal → Bool
  | str a, str b => decide (a = b)
  | jnum a, jnum b =>
      match a, b with
      | JNum.nan, _ => false
      | _, JNum.nan => false
      | JNum.num x, JNum.num y => decide (x = y)
      | JNum.posInf, JNum.posInf => true
      | JNum.negInf, JNum.negInf => true
      | _, _ => false
  | jsUndefined, jsUndefined => true
  | _, _ => false

/-- JS `>` on record fields: numeric comparison on numbers, lexicographic
on strings, false whenever `undefined` or NaN is involved. -/
def jgt : JVal → JVal → Bool
  | jnum a, jnum b => a.gtb b
  | str a, str b => decide (b < a)
  | _, _ => false

end JVal

/-- A JS object: an association list in property-insertion order. -/
abbrev JObj (α : Type) := List (JVal × α)

/-- A record (one row of a dataset): fields mapping to values. -/
abbrev JRec := JObj JVal

/-- A data object: records keyed by identifier. -/
abbrev JData := JObj JRec

/-- One matrix row: column key to numeric cell. -/
abbrev JRow := JObj JNum

/-- A matrix: row key to row, as built by `createMatrix`. -/
abbrev JMat := JObj JRow

/-- Property read, `o[k]`, as an option (generic in the key type so the
same lookup serves JS objects and the z-score table). -/
def lookupKey {κ α : Type} [DecidableEq κ] : List (κ × α) → κ → Option α
  | [], _ => none
  | e :: rest, k => if e.1 = k then some e.2 else lookupKey rest k

/-- Property assignment, `o[k] = v`: overwrite in place if the key is
present, otherwise append (JS insertion order). -/
def setKey {α : Type} : JObj α → JVal → α → JObj α
  | [], k, v => [(k, v)]
  | e :: rest, k, v => if e.1 = k then (e.1, v) :: rest else e :: setKey rest k v

/-- JS `Object.keys(o)`. -/
def keysOf {α : Type} (o : JObj α) : List JVal := o.map Prod.fst

/-- Field read on a record: `rec[field]`, `undefined` when missing. -/
def getV (r : JRec) (field : JVal) : JVal := (lookupKey r field).getD .jsUndefined

/-- Cell read on a matrix row: a missing column is `undefined`, which
behaves as NaN in the arithmetic the source performs on it. -/
def rowGet (r : JRow) (c : JVal) : JNum := (lookupKey r c).getD .nan

/-! ## data-objects.js -/

/-- One step of `getVariations`: push a record's field value unless it
was already seen (`Array.includes` uses SameValueZero, which structural
equality on `JVal` matches). -/
def gvStep (field : JVal) (acc : List JVal) (e : JVal × JRec) : List JVal :=
  if getV e.2 field ∈ acc then acc else acc ++ [getV e.2 field]

/-- Source `getVariations(data, field)`: the distinct values of a field across a
data set, in order of first appearance. -/
def getVariations (data : JData) (field : JVal) : List JVal :=
  data.foldl (gvStep field) []

/-- The `"=="` branch of `filter(data, parameters, comparison)`: for each
parameter, every record whose field loosely equals the parameter's value is
assigned into the result, preserving the data set's record order. -/
def filterEq (data : JData) (params : JRec) : JData :=
  params.foldl
    (fun res p =>
      data.foldl
        (fun res e => if (getV e.2 p.1).jeq p.2 then setKey res e.1 e.2 else res)
        res)
    []

/-- The `">"` branch of `filter`. -/
def filterGt (data : JData) (params : JRec) : JData :=
  params.foldl
    (fun res p =>
      data.foldl
        (fun res e => if (getV e.2 p.1).jgt p.2 then setKey res e.1 e.2 else res)
        res)
    []

/-- The `"<"` branch of `filter`.  The source tests
`data[record][param] > parameters[param]` and its body is the bare
comparison expression `result[record] < data[record]`, which assigns
nothing — so this branch never adds a record, whatever the test says. -/
def filterLt (data : JData) (params : JRec) : JData :=
  params.foldl
    (fun res p =>
      data.foldl
        (fun res e => if (getV e.2 p.1).jgt p.2 then res else res)
        res)
    []

/-- The `"includes"` branch of `filter`: the parameter value is an array,
modelled as the list of its elements. -/
def filterIncludes (data : JData) (params : List (JVal × List JVal)) : JData :=
  params.foldl
    (fun res p =>
      data.foldl
        (fun res e => if getV e.2 p.1 ∈ p.2 then setKey res e.1 e.2 else res)
        res)
    []

/-- Source `filter(data, parameters, comparison)` dispatching on the comparison
operator; an unrecognized operator throws. -/
def dataFilter (data : JData) (params : JRec) (comparison : String) :
    Except String JData :=
  if comparison = "==" then .ok (filterEq data params)
  else if comparison = ">" then .ok (filterGt data params)
  else if comparison = "<" then .ok (filterLt data params)
  else .error "Comparison not allowed."

/-- The update `result[row][col] += val` inside `createMatrix`: the row is always one
of the enumerated rows, so the missing-row branch (a JS TypeError) is
unreachable there and left as the identity. -/
def matAddAt (m : JMat) (r c : JVal) (v : JNum) : JMat :=
  match lookupKey m r with
  | none => m
  | some row => setKey m r (setKey row c ((rowGet row c).add v))

/-- One step of `createMatrix`'s accumulation loop: add a record's value
into the cell named by its (row, col) field pair. -/
def cmStep (rf cf vf : JVal) (m : JMat) (e : JVal × JRec) : JMat :=
  matAddAt m (getV e.2 rf) (getV e.2 cf) (getV e.2 vf).toJNum

/-- Source `createMatrix(data, row_feild, column_feild, value_feild)`: enumerate
the distinct row and column values, zero-fill the full grid, then sum each
record's value into the cell named by its (row, col) pair. -/
def createMatrix (data : JData) (rf cf vf : JVal) : JMat :=
  let rows := getVariations data rf
  let cols := getVariations data cf
  data.foldl (cmStep rf cf vf)
    (rows.map (fun r => (r, cols.map (fun c => (c, JNum.num 0)))))

/-- Source `crossCut(data, filter)`: keep the rows whose key is listed, in the
data's own order. -/
def crossCut {α : Type} (data : JObj α) (filt : List JVal) : JObj α :=
  data.filter (fun e => e.1 ∈ filt)

/-! ## computation.js -/

/-- The column keys `Object.keys(matrix[rows[0]])` taken from a matrix's
first row.  On an empty matrix `rows[0]` is undefined and
`Object.keys(undefined)` throws a TypeError — in the source this runs
before any dimension check. -/
def firstRowKeys (m : JMat) : Except String (List JVal) :=
  match m with
  | [] => .error "TypeError: cannot convert undefined or null to object"
  | e :: _ => .ok (keysOf e.2)

/-- Source `matrix_mult(matrixA, matrixB)`: enumerates A's then B's
column keys (a TypeError on an empty argument, in that order), checks
only that the column-key count of A equals the row-key count of B, then
sums positionally — `colsA[k]` of A is paired with `rowsB[k]` of B, by
index, not by key. -/
def matrix_mult (A B : JMat) : Except String JMat :=
  match firstRowKeys A with
  | .error e => .error e
  | .ok colsA =>
    match firstRowKeys B with
    | .error e => .error e
    | .ok colsB =>
      if colsA.length ≠ (keysOf B).length then
        .error "Invalid matrix dimensions for multiplication"
      else
        .ok ((keysOf A).map (fun ra =>
          let aRow := (lookupKey A ra).getD []
          (ra, colsB.map (fun cb =>
            (cb, (colsA.zip (keysOf B)).foldl
              (fun acc kk =>
                acc.add ((rowGet aRow kk.1).mul
                  (rowGet ((lookupKey B kk.2).getD []) cb)))
              (JNum.num 0))))))

/-- The shared row loop of `difference` and `piecewiseDivision`: for each
row key of A (in order), read B's row at A's key — a JS TypeError when it
is missing — and combine the cells at A's column keys with the given
operation (a column missing from either row reads as `undefined`, NaN in
the arithmetic). -/
def cellwiseRows (op : JNum → JNum → JNum) (A B : JMat) (colsA : List JVal) :
    List JVal → Except String JMat
  | [] => .ok []
  | ra :: rest =>
    match lookupKey B ra with
    | none => .error "TypeError: cannot read properties of undefined"
    | some bRow =>
      let aRow := (lookupKey A ra).getD []
      match cellwiseRows op A B colsA rest with
      | .error e => .error e
      | .ok tail =>
          .ok ((ra, colsA.map (fun ca => (ca, op (rowGet aRow ca) (rowGet bRow ca)))) :: tail)

/-- Source `difference(matrixA, matrixB)`: enumerates A's then B's
column keys (so an empty argument throws a TypeError before any check),
then compares only the row-key and column-key counts, then subtracts
cell by cell at A's keys. -/
def difference (A B : JMat) : Except String JMat :=
  match firstRowKeys A with
  | .error e => .error e
  | .ok colsA =>
    match firstRowKeys B with
    | .error e => .error e
    | .ok colsB =>
      if (keysOf A).length ≠ (keysOf B).length ∨ colsA.length ≠ colsB.length then
        .error "Invalid matrix dimensions for subtraction"
      else
        cellwiseRows JNum.sub A B colsA (keysOf A)

/-- Source `piecewiseDivision(matrixA, matrixB)`: same key enumeration
and shape check (and even the same copy-pasted error text) as
`difference`, with cell-by-cell JS division — a zero denominator
silently yields an infinity or NaN. -/
def piecewiseDivision (A B : JMat) : Except String JMat :=
  match firstRowKeys A with
  | .error e => .error e
  | .ok colsA =>
    match firstRowKeys B with
    | .error e => .error e
    | .ok colsB =>
      if (keysOf A).length ≠ (keysOf B).length ∨ colsA.length ≠ colsB.length then
        .error "Invalid matrix dimensions for subtraction"
      else
        cellwiseRows JNum.div A B colsA (keysOf A)

/-! ## mfg-planning.js -/

/-- The slice of a Manufacturing Data Object that the horizontal-plan
generator reads. -/
structure MDO where
  items : JData
  forecast : JData
  calendar : JData
deriving DecidableEq, Repr

/-- One item's horizontal plan: the 8 fixed rows, each a period-keyed
row in calendar order. -/
structure HPlan where
  safetyStockPlan : JRow
  cycleStockPlan : JRow
  levelLoadPlan : JRow
  totalInvPlan : JRow
  beginningInventory : JRow
  salesForecast : JRow
  productionPlan : JRow
  endingInventory : JRow
deriving DecidableEq, Repr

/-- One step of the highest-forecast scan: a record whose forecast is
strictly above the running maximum replaces both the maximum and the
remembered period. -/
def mfsStep (acc : JNum × Option JVal) (e : JVal × JRec) : JNum × Option JVal :=
  if ((getV e.2 (.str "forecast")).toJNum).gtb acc.1 then
    ((getV e.2 (.str "forecast")).toJNum, some (getV e.2 (.str "period")))
  else acc

/-- The highest-forecast scan of `generateHorizontalPlan`: starting from
`maxPeriodForecast = 0, maxPeriod = null`, each record with forecast
strictly above the running maximum replaces it, so the first record
attaining the maximum wins ties. -/
def maxForecastScan (itemForecast : JData) : JNum × Option JVal :=
  itemForecast.foldl mfsStep (JNum.num 0, none)

/-- The strategy dispatch of `generateHorizontalPlan`: the two reactive
strategies size safety stock from the max-forecast period's run rate
(`MDO.calendar[maxPeriod].days` throws when `maxPeriod` is null or not a
calendar key) and cycle stock as half the fixed order quantity; any other
strategy yields zero for both. -/
def strategyStocks (itemRec : JRec) (calendar : JData) (maxF : JNum)
    (maxP : Option JVal) : Except String (JNum × JNum) :=
  if (getV itemRec (.str "strategy")).jeq (.str "Reactive Level Load - Fast") then
    match maxP.bind (lookupKey calendar) with
    | none => .error "TypeError: cannot read properties of undefined"
    | some calRec =>
        .ok (((maxF.div (getV calRec (.str "days")).toJNum).mul (.num 8)).round,
             (((getV itemRec (.str "FOQ")).toJNum).mul (.num (1/2))).round)
  else if (getV itemRec (.str "strategy")).jeq (.str "Reactive Level Load - Slow") then
    match maxP.bind (lookupKey calendar) with
    | none => .error "TypeError: cannot read properties of undefined"
    | some calRec =>
        .ok (((maxF.div (getV calRec (.str "days")).toJNum).mul (.num 20)).round,
             (((getV itemRec (.str "FOQ")).toJNum).mul (.num (1/2))).round)
  else .ok (.num 0, .num 0)

/-- The period loop of `generateHorizontalPlan`, one column per calendar
period: level load is fixed at 0, total inventory plan is safety stock
plus cycle stock, sales forecast is the forecast-matrix row read at the
period, production is netted below at zero, and ending inventory closes
the balance that the next period opens with. -/
def rollforward (fr : JRow) (ss cs beg : JNum) : List JVal → HPlan
  | [] => ⟨[], [], [], [], [], [], [], []⟩
  | p :: rest =>
    let ti := ss.add cs
    let sf := rowGet fr p
    let pr := if (ti.add sf).ltb beg then JNum.num 0 else (ti.add sf).sub beg
    let ed := (beg.sub sf).add pr
    let tail := rollforward fr ss cs ed rest
    ⟨(p, ss) :: tail.safetyStockPlan,
     (p, cs) :: tail.cycleStockPlan,
     (p, JNum.num 0) :: tail.levelLoadPlan,
     (p, ti) :: tail.totalInvPlan,
     (p, beg) :: tail.beginningInventory,
     (p, sf) :: tail.salesForecast,
     (p, pr) :: tail.productionPlan,
     (p, ed) :: tail.endingInventory⟩

/-- The body of `generateHorizontalPlan` for one item.  The item's
forecast records are selected with `filter(…, "==")`, the max-forecast
period and the strategy stocks are computed once, and the rollforward
reads the forecast matrix's row for the item —
`forecastMatrix[item][period]` throws when the item is not a row of the
matrix, which the loop first reaches when the calendar is non-empty. -/
def generateHorizontalPlanItem (M : MDO) (itemKey : JVal) (itemRec : JRec)
    (fm : JMat) : Except String HPlan :=
  let itemForecast := filterEq M.forecast [(.str "item", itemKey)]
  let scan := maxForecastScan itemForecast
  match strategyStocks itemRec M.calendar scan.1 scan.2 with
  | .error e => .error e
  | .ok (ss, cs) =>
    match keysOf M.calendar with
    | [] => .ok (rollforward [] ss cs (getV itemRec (.str "currentInventory")).toJNum [])
    | p :: ps =>
      match lookupKey fm itemKey with
      | none => .error "TypeError: cannot read properties of undefined"
      | some fr =>
          .ok (rollforward fr ss cs (getV itemRec (.str "currentInventory")).toJNum (p :: ps))

/-- Source `generateHorizontalPlan(MDO)`: build the forecast matrix once, then
produce one horizontal plan per item, in item order. -/
def generateHorizontalPlan (M : MDO) : Except String (List (JVal × HPlan)) :=
  let fm := createMatrix M.forecast (.str "item") (.str "period") (.str "forecast")
  M.items.mapM (fun e =>
    (generateHorizontalPlanItem M e.1 e.2 fm).map (fun hp => (e.1, hp)))

/-- Source `calculateRYG(data)`: the constraints matrix names the constrained
resources, the aggregate-requirements matrix is cut down to those rows,
and the ratio matrix is their piecewise division. -/
def calculateRYG (constraints : JData) (aggRequirements : JMat) :
    Except String JMat :=
  let constraintsMatrix :=
    createMatrix constraints (.str "resource") (.str "period") (.str "constraint")
  let constrainedResources := keysOf constraintsMatrix
  let agg := crossCut aggRequirements constrainedResources
  piecewiseDivision agg constraintsMatrix

/-! ## stats.js -/

/-- One step of `calc`'s initial data scrape: update the running maximum
and minimum with a record's value under JS `>` / `<`. -/
def scrapeStep (column : JVal) (mm : JNum × JNum) (e : JVal × JRec) : JNum × JNum :=
  ((if ((getV e.2 column).toJNum).gtb mm.1 then (getV e.2 column).toJNum else mm.1),
   (if ((getV e.2 column).toJNum).ltb mm.2 then (getV e.2 column).toJNum else mm.2))

/-- The initial data scrape of `calc(data, column, z)`: the running
maximum starts at `0`, the running minimum at `Infinity`, and each value
replaces them under JS `>` / `<`. -/
def calcMaxMin (data : JData) (column : JVal) : JNum × JNum :=
  data.foldl (scrapeStep column) (JNum.num 0, JNum.posInf)

/-- The z-score lookup table of `normInverse`, in the source's
(ascending) insertion order. -/
def zTable : List (ℚ × ℚ) :=
  [(0.000000001, -6),
   (0.00000001, -5.61), (0.0000001, -5.2), (0.000001, -4.75),
   (0.00001, -4.26), (0.0001, -3.72), (0.001, -3.09), (0.005, -2.58),
   (0.01, -2.33), (0.02, -2.05), (0.03, -1.88), (0.04, -1.75), (0.05, -1.64),
   (0.06, -1.55), (0.07, -1.48), (0.08, -1.41), (0.09, -1.34), (0.10, -1.28),
   (0.11, -1.23), (0.12, -1.17), (0.13, -1.13), (0.14, -1.08), (0.15, -1.04),
   (0.16, -0.99), (0.17, -0.95), (0.18, -0.92), (0.19, -0.88), (0.20, -0.84),
   (0.21, -0.81), (0.22, -0.77), (0.23, -0.74), (0.24, -0.71), (0.25, -0.67),
   (0.26, -0.64), (0.27, -0.61), (0.28, -0.58), (0.29, -0.55), (0.30, -0.52),
   (0.31, -0.50), (0.32, -0.47), (0.33, -0.44), (0.34, -0.41), (0.35, -0.39),
   (0.36, -0.36), (0.37, -0.33), (0.38, -0.31), (0.39, -0.28), (0.40, -0.25),
   (0.41, -0.23), (0.42, -0.20), (0.43, -0.18), (0.44, -0.15), (0.45, -0.13),
   (0.46, -0.10), (0.47, -0.08), (0.48, -0.05), (0.49, -0.03), (0.50, 0.00),
   (0.51, 0.03), (0.52, 0.05), (0.53, 0.08), (0.54, 0.10), (0.55, 0.13),
   (0.56, 0.15), (0.57, 0.18), (0.58, 0.20), (0.59, 0.23), (0.60, 0.25),
   (0.61, 0.28), (0.62, 0.31), (0.63, 0.33), (0.64, 0.36), (0.65, 0.39),
   (0.66, 0.41), (0.67, 0.44), (0.68, 0.47), (0.69, 0.50), (0.70, 0.52),
   (0.71, 0.55), (0.72, 0.58), (0.73, 0.61), (0.74, 0.64), (0.75, 0.67),
   (0.76, 0.71), (0.77, 0.74), (0.78, 0.77), (0.79, 0.81), (0.80, 0.84),
   (0.81, 0.88), (0.82, 0.92), (0.83, 0.95), (0.84, 0.99), (0.85, 1.04),
   (0.86, 1.08), (0.87, 1.13), (0.88, 1.17), (0.89, 1.23), (0.90, 1.28),
   (0.91, 1.34), (0.92, 1.41), (0.93, 1.48), (0.94, 1.55), (0.95, 1.64),
   (0.96, 1.75), (0.97, 1.88), (0.98, 2.05), (0.985, 2.17), (0.99, 2.33),
   (0.995, 2.58), (0.999, 3.09), (0.9999, 3.72), (0.99999, 4.26),
   (0.999999, 4.75), (0.9999999, 5.20), (0.99999999, 5.61),
   (0.999999999, 6.00)]

/-- The `lowerP` scan of `normInverse`: starting from 0, every key that
is at most `p` and above the running value replaces it. -/
def lowerScan (p : ℚ) : ℚ :=
  zTable.foldl (fun acc k => if k.1 ≤ p ∧ acc < k.1 then k.1 else acc) 0

/-- The `higherP` scan of `normInverse`: starting from 1, every key that
is at least `p` and below the running value replaces it. -/
def higherScan (p : ℚ) : ℚ :=
  zTable.foldl (fun acc k => if p ≤ k.1 ∧ k.1 < acc then k.1 else acc) 1

/-- Source `normInverse(p)`: an exact table key returns its tabulated z-score
(the source returns from inside the key loop on the first hit); otherwise
the nearest keys on each side bracket `p` and the z-score is their linear
interpolation.  When a scan ends on its initial 0 or 1 — `p` outside the
table's span — the JS table read is `undefined` and the arithmetic
produces NaN. -/
def normInverse (p : ℚ) : JNum :=
  if p ∈ zTable.map Prod.fst then
    ((lookupKey zTable p).map JNum.num).getD .nan
  else
    let lowerP := lowerScan p
    let higherP := higherScan p
    match lookupKey zTable lowerP, lookupKey zTable higherP with
    | some lz, some hz =>
        .num (lz + (hz - lz) * ((p - lowerP) / (higherP - lowerP)))
    | _, _ => .nan

/-! ## Derived quantities used to state the claims -/

/-- JS `Math.round` at the rational level: halves go up. -/
def jsRound (q : ℚ) : ℚ := ((⌊q + 1/2⌋ : ℤ) : ℚ)

/-- The value stored in the `i`-th column of a plan row. -/
def rowVal (r : JRow) (i : ℕ) : JNum := (r.getD i (JVal.jsUndefined, JNum.nan)).2

/-- The period key of the `i`-th column of a plan row. -/
def rowKey (r : JRow) (i : ℕ) : JVal := (r.getD i (JVal.jsUndefined, JNum.nan)).1

/-- Sum of a rational measure over an object's values. -/
def sumBy {α : Type} (f : α → ℚ) (o : JObj α) : ℚ := (o.map (fun e => f e.2)).sum

/-- Rational content summed over one matrix row. -/
def rowSumQ (r : JRow) : ℚ := sumBy JNum.toQ r

/-- Rational content summed over all cells of a matrix. -/
def sumCellsQ (m : JMat) : ℚ := sumBy rowSumQ m

/-- Does a record fall in cell `(r, c)` of the matrix being built? -/
def recMatches (rf cf r c : JVal) (e : JVal × JRec) : Bool :=
  decide (getV e.2 rf = r) && decide (getV e.2 cf = c)

/-- The sum of the value field over the records that fall in cell
`(r, c)` — the claims' key-paired aggregate. -/
def cellSumQ (l : JData) (rf cf vf r c : JVal) : ℚ :=
  ((l.filter (recMatches rf cf r c)).map (fun e => (getV e.2 vf).toJNum.toQ)).sum

/-- The sum of the value field over all records. -/
def valueSumQ (l : JData) (vf : JVal) : ℚ :=
  (l.map (fun e => (getV e.2 vf).toJNum.toQ)).sum

/-- The cell of a matrix at a (row, column) key pair, when both exist. -/
def cellQ (m : JMat) (r c : JVal) : Option JNum :=
  (lookupKey m r).bind (fun row => lookupKey row c)

/-- The value a forecast record contributes to the highest-forecast scan. -/
def fval (e : JVal × JRec) : JNum := (getV e.2 (.str "forecast")).toJNum

/-! ## Concrete fixtures used in counterexamples and witnesses -/

/-- A 1×2 matrix whose columns were inserted as x then y. -/
def fixMulA : JMat := [(.str "r", [(.str "x", .num 1), (.str "y", .num 2)])]

/-- A 2×1 matrix whose rows were inserted as y then x — the same key set
as `fixMulA`'s columns, in the opposite insertion order. -/
def fixMulB : JMat := [(.str "y", [(.str "c", .num 10)]), (.str "x", [(.str "c", .num 100)])]

/-- A constraint record set giving resource R capacity 0 in period P. -/
def fixConsZero : JData :=
  [(.str "1", [(.str "resource", .str "R"), (.str "period", .str "P"),
               (.str "constraint", .jnum (.num 0))])]

/-- A constraint record set giving resource R capacity 100 in period P. -/
def fixConsHundred : JData :=
  [(.str "1", [(.str "resource", .str "R"), (.str "period", .str "P"),
               (.str "constraint", .jnum (.num 100))])]

/-- An aggregate-requirements matrix with load 110 on resource R in period P. -/
def fixAgg : JMat := [(.str "R", [(.str "P", .num 110)])]

/-- A 1×1 matrix with column key x. -/
def fixSubA : JMat := [(.str "r", [(.str "x", .num 1)])]

/-- A 1×1 matrix with column key y: same key counts as `fixSubA`, but a
different column-key set. -/
def fixSubB : JMat := [(.str "r", [(.str "y", .num 2)])]

/-- An MDO whose single item A has a forecast record only for period p1
while the calendar also contains p2. -/
def fixGapMDO : MDO :=
  { items := [(.str "A", [(.str "strategy", .str "None"),
                          (.str "currentInventory", .jnum (.num 0))])],
    forecast := [(.str "2", [(.str "item", .str "A"), (.str "period", .str "p1"),
                             (.str "forecast", .jnum (.num 5))])],
    calendar := [(.str "p1", []), (.str "p2", [])] }

/-- The item record of `fixGapMDO`'s single item. -/
def fixGapRec : JRec :=
  [(.str "strategy", .str "None"), (.str "currentInventory", .jnum (.num 0))]

/-- The forecast matrix row for item A of `fixGapMDO`: only p1 is a
column, because no forecast record mentions p2. -/
def fixGapRow : JRow := [(.str "p1", .num 5)]

/-- The horizontal plan the generator produces on `fixGapMDO`: the p2
column of Sales Forecast (and everything downstream of it) is NaN. -/
def fixGapPlan : HPlan :=
  { safetyStockPlan := [(.str "p1", .num 0), (.str "p2", .num 0)],
    cycleStockPlan := [(.str "p1", .num 0), (.str "p2", .num 0)],
    levelLoadPlan := [(.str "p1", .num 0), (.str "p2", .num 0)],
    totalInvPlan := [(.str "p1", .num 0), (.str "p2", .num 0)],
    beginningInventory := [(.str "p1", .num 0), (.str "p2", .num 0)],
    salesForecast := [(.str "p1", .num 5), (.str "p2", .nan)],
    productionPlan := [(.str "p1", .num 5), (.str "p2", .nan)],
    endingInventory := [(.str "p1", .num 0), (.str "p2", .nan)] }

/-- A two-period MDO with one fast-reactive item, used as a witness
instance for the rollforward claims. -/
def fixPlanMDO : MDO :=
  { items := [(.str "A", [(.str "strategy", .str "Reactive Level Load - Fast"),
                          (.str "FOQ", .jnum (.num 100)),
                          (.str "currentInventory", .jnum (.num 50))])],
    forecast := [(.str "1", [(.str "item", .str "A"), (.str "period", .str "p1"),
                             (.str "forecast", .jnum (.num 40))]),
                 (.str "2", [(.str "item", .str "A"), (.str "period", .str "p2"),
                             (.str "forecast", .jnum (.num 60))])],
    calendar := [(.str "p1", [(.str "days", .jnum (.num 20))]),
                 (.str "p2", [(.str "days", .jnum (.num 30))])] }

/-- The item record of `fixPlanMDO`'s single item. -/
def fixPlanRec : JRec :=
  [(.str "strategy", .str "Reactive Level Load - Fast"),
   (.str "FOQ", .jnum (.num 100)), (.str "currentInventory", .jnum (.num 50))]

/-- The forecast matrix row for item A of `fixPlanMDO`. -/
def fixPlanRow : JRow := [(.str "p1", .num 40), (.str "p2", .num 60)]

/-- The horizontal plan produced for `fixPlanMDO`'s item A: safety stock
round(60 / 30 × 8) = 16, cycle stock round(100 × 0.5) = 50. -/
def fixPlan : HPlan :=
  { safetyStockPlan := [(.str "p1", .num 16), (.str "p2", .num 16)],
    cycleStockPlan := [(.str "p1", .num 50), (.str "p2", .num 50)],
    levelLoadPlan := [(.str "p1", .num 0), (.str "p2", .num 0)],
    totalInvPlan := [(.str "p1", .num 66), (.str "p2", .num 66)],
    beginningInventory := [(.str "p1", .num 50), (.str "p2", .num 66)],
    salesForecast := [(.str "p1", .num 40), (.str "p2", .num 60)],
    productionPlan := [(.str "p1", .num 56), (.str "p2", .num 60)],
    endingInventory := [(.str "p1", .num 66), (.str "p2", .num 66)] }


/-! ## Association-list lemmas -/

theorem lookupKey_setKey {α : Type} (o : JObj α) (k k' : JVal) (v : α) :
    lookupKey (setKey o k v) k' = if k' = k then some v else lookupKey o k' := by
  induction o with
  | nil =>
      by_cases h : k' = k
      · simp [setKey, lookupKey, h]
      · simp [setKey, lookupKey, h, Ne.symm h]
  | cons e rest ih =>
      by_cases he : e.1 = k
      · by_cases h : k' = k
        · simp [setKey, lookupKey, he, h]
        · simp [setKey, lookupKey, he, h, Ne.symm h]
      · simp only [setKey, he, if_false]
        by_cases h2 : e.1 = k'
        · have h3 : ¬ k' = k := fun hk => he (h2.trans hk)
          simp [lookupKey, h2, h3]
        · simp [lookupKey, h2, ih]

theorem keysOf_setKey_mem {α : Type} (o : JObj α) (k : JVal) (v : α)
    (h : k ∈ keysOf o) : keysOf (setKey o k v) = keysOf o := by
  induction o with
  | nil => simp [keysOf] at h
  | cons e rest ih =>
      by_cases he : e.1 = k
      · simp [setKey, he, keysOf]
      · have h' : k ∈ keysOf rest := by
          simp only [keysOf, List.map_cons, List.mem_cons] at h
          rcases h with h | h
          · exact absurd h.symm he
          · exact h
        have h3 := ih h'
        simp only [keysOf] at h3
        simp [setKey, he, keysOf, h3]

theorem lookupKey_eq_none {κ α : Type} [DecidableEq κ] (o : List (κ × α)) (k : κ) :
    lookupKey o k = none ↔ k ∉ o.map Prod.fst := by
  induction o with
  | nil => simp [lookupKey]
  | cons e rest ih =>
      by_cases he : e.1 = k
      · simp [lookupKey, he]
      · simp [lookupKey, he, ih, List.mem_cons, Ne.symm he]

theorem exists_lookupKey_of_mem {κ α : Type} [DecidableEq κ] (o : List (κ × α)) (k : κ)
    (h : k ∈ o.map Prod.fst) : ∃ v, lookupKey o k = some v := by
  rcases ho : lookupKey o k with _ | v
  · exact absurd ((lookupKey_eq_none o k).mp ho) (by simpa using h)
  · exact ⟨v, rfl⟩

theorem lookupKey_mem_keys {κ α : Type} [DecidableEq κ] (o : List (κ × α)) (k : κ) (v : α)
    (h : lookupKey o k = some v) : k ∈ o.map Prod.fst := by
  by_contra hk
  rw [(lookupKey_eq_none o k).mpr hk] at h
  cases h

theorem lookupKey_map_pair {α : Type} (l : List JVal) (v : α) (k : JVal)
    (h : k ∈ l) : lookupKey (l.map (fun x => (x, v))) k = some v := by
  induction l with
  | nil => simp at h
  | cons x rest ih =>
      by_cases hx : x = k
      · simp [lookupKey, hx]
      · rcases List.mem_cons.mp h with h' | h'
        · exact absurd h'.symm hx
        · simp [lookupKey, hx, ih h']

theorem keysOf_map_pair {α : Type} (l : List JVal) (v : α) :
    keysOf (l.map (fun x => (x, v))) = l := by
  induction l with
  | nil => rfl
  | cons x rest ih => simp [keysOf] at ih ⊢; exact ih

theorem sumBy_setKey {α : Type} (f : α → ℚ) (o : JObj α) (k : JVal) (v old : α)
    (h : lookupKey o k = some old) :
    sumBy f (setKey o k v) = sumBy f o - f old + f v := by
  induction o with
  | nil => simp [lookupKey] at h
  | cons e rest ih =>
      by_cases he : e.1 = k
      · simp only [lookupKey, he, if_true, Option.some.injEq] at h
        subst h
        simp [setKey, he, sumBy, List.map_cons, List.sum_cons]
        ring
      · simp only [lookupKey, he, if_false] at h
        simp only [setKey, he, if_false]
        simp only [sumBy, List.map_cons, List.sum_cons] at ih ⊢
        rw [ih h]
        ring

theorem lookupKey_map_pair_inv {α : Type} (l : List JVal) (v w : α) (k : JVal)
    (h : lookupKey (l.map (fun x => (x, v))) k = some w) : w = v := by
  induction l with
  | nil => simp [lookupKey] at h
  | cons x rest ih =>
      by_cases hx : x = k
      · simp [lookupKey, hx] at h
        exact h.symm
      · simp only [List.map_cons, lookupKey, hx, if_false] at h
        exact ih h

theorem sumBy_map_pair {α : Type} (f : α → ℚ) (l : List JVal) (v : α) :
    sumBy f (l.map (fun x => (x, v))) = l.length * f v := by
  induction l with
  | nil => simp [sumBy]
  | cons x rest ih =>
      simp only [List.map_cons, sumBy, List.sum_cons, List.length_cons] at ih ⊢
      rw [ih]
      push_cast
      ring

/-! ## getVariations lemmas -/

theorem gvFold_mono (f : JVal) (data : JData) :
    ∀ (acc : List JVal) (x : JVal), x ∈ acc → x ∈ data.foldl (gvStep f) acc := by
  induction data with
  | nil => intro acc x hx; simpa using hx
  | cons e rest ih =>
      intro acc x hx
      simp only [List.foldl_cons]
      by_cases h : getV e.2 f ∈ acc
      · rw [gvStep, if_pos h]; exact ih acc x hx
      · rw [gvStep, if_neg h]; exact ih _ x (by simp [hx])

theorem gvFold_mem (f : JVal) (data : JData) :
    ∀ (acc : List JVal) (e : JVal × JRec), e ∈ data →
      getV e.2 f ∈ data.foldl (gvStep f) acc := by
  induction data with
  | nil => intro acc e he; simp at he
  | cons e0 rest ih =>
      intro acc e he
      simp only [List.foldl_cons]
      rcases List.mem_cons.mp he with h | h
      · subst h
        by_cases hm : getV e.2 f ∈ acc
        · rw [gvStep, if_pos hm]; exact gvFold_mono f rest acc _ hm
        · rw [gvStep, if_neg hm]; exact gvFold_mono f rest _ _ (by simp)
      · exact ih _ e h

theorem mem_getVariations (data : JData) (f : JVal) (e : JVal × JRec)
    (he : e ∈ data) : getV e.2 f ∈ getVariations data f := by
  unfold getVariations
  exact gvFold_mem f data [] e he

/-! ## createMatrix lemmas -/

theorem matAddAt_eq (m : JMat) (r0 c0 : JVal) (v : JNum) (row : JRow)
    (hrow : lookupKey m r0 = some row) :
    matAddAt m r0 c0 v = setKey m r0 (setKey row c0 ((rowGet row c0).add v)) := by
  unfold matAddAt
  rw [hrow]

theorem matAddAt_keys (m : JMat) (r0 c0 : JVal) (v : JNum) (row : JRow)
    (hrow : lookupKey m r0 = some row) :
    keysOf (matAddAt m r0 c0 v) = keysOf m := by
  rw [matAddAt_eq m r0 c0 v row hrow]
  exact keysOf_setKey_mem m r0 _ (lookupKey_mem_keys m r0 row hrow)

theorem cellQ_matAddAt (m : JMat) (r0 c0 : JVal) (v : JNum) (row : JRow)
    (hrow : lookupKey m r0 = some row) (r c : JVal) :
    cellQ (matAddAt m r0 c0 v) r c =
      if r = r0 ∧ c = c0 then some ((rowGet row c0).add v) else cellQ m r c := by
  rw [matAddAt_eq m r0 c0 v row hrow]
  by_cases hr : r = r0
  · subst hr
    by_cases hc : c = c0
    · subst hc
      simp [cellQ, lookupKey_setKey]
    · simp [cellQ, lookupKey_setKey, hc, hrow]
  · simp [cellQ, lookupKey_setKey, hr]

theorem cellSumQ_cons (e : JVal × JRec) (rest : JData) (rf cf vf r c : JVal) :
    cellSumQ (e :: rest) rf cf vf r c =
      (if getV e.2 rf = r ∧ getV e.2 cf = c then (getV e.2 vf).toJNum.toQ else 0)
      + cellSumQ rest rf cf vf r c := by
  by_cases h : getV e.2 rf = r ∧ getV e.2 cf = c
  · simp [cellSumQ, List.filter_cons, recMatches, h.1, h.2]
  · rw [if_neg h]
    have hb : recMatches rf cf r c e = false := by
      simp only [recMatches, Bool.and_eq_false_iff, decide_eq_false_iff_not]
      by_cases h1 : getV e.2 rf = r
      · exact Or.inr (fun h2 => h ⟨h1, h2⟩)
      · exact Or.inl h1
    simp [cellSumQ, List.filter_cons, hb]

theorem valueSumQ_cons (e : JVal × JRec) (rest : JData) (vf : JVal) :
    valueSumQ (e :: rest) vf = (getV e.2 vf).toJNum.toQ + valueSumQ rest vf := by
  simp [valueSumQ]

theorem exists_lookupKey_keysOf {α : Type} (o : JObj α) (k : JVal)
    (h : k ∈ keysOf o) : ∃ v, lookupKey o k = some v :=
  exists_lookupKey_of_mem o k (by simpa [keysOf] using h)

theorem lookupKey_mem_keysOf {α : Type} (o : JObj α) (k : JVal) (v : α)
    (h : lookupKey o k = some v) : k ∈ keysOf o := by
  simpa [keysOf] using lookupKey_mem_keys o k v h

theorem lookupKey_none_keysOf {α : Type} (o : JObj α) (k : JVal) :
    lookupKey o k = none ↔ k ∉ keysOf o := by
  simpa [keysOf] using lookupKey_eq_none o k

theorem cmFold_spec (rf cf vf : JVal) (l : JData) :
    ∀ (m : JMat) (rows cols : List JVal),
      keysOf m = rows →
      (∀ r row, lookupKey m r = some row → keysOf row = cols) →
      (∀ r c, r ∈ rows → c ∈ cols → ∃ q : ℚ, cellQ m r c = some (.num q)) →
      (∀ e ∈ l, getV e.2 rf ∈ rows) →
      (∀ e ∈ l, getV e.2 cf ∈ cols) →
      (∀ e ∈ l, ∃ q : ℚ, (getV e.2 vf).toJNum = .num q) →
      keysOf (l.foldl (cmStep rf cf vf) m) = rows
      ∧ (∀ r row, lookupKey (l.foldl (cmStep rf cf vf) m) r = some row →
          keysOf row = cols)
      ∧ (∀ r c q, cellQ m r c = some (.num q) →
          cellQ (l.foldl (cmStep rf cf vf) m) r c
            = some (.num (q + cellSumQ l rf cf vf r c)))
      ∧ sumCellsQ (l.foldl (cmStep rf cf vf) m) = sumCellsQ m + valueSumQ l vf := by
  induction l with
  | nil =>
      intro m rows cols hkeys hrowKeys hcells _ _ _
      refine ⟨hkeys, hrowKeys, ?_, ?_⟩
      · intro r c q hq
        simpa [cellSumQ] using hq
      · simp [valueSumQ]
  | cons e rest ih =>
      intro m rows cols hkeys hrowKeys hcells hlr hlc hlv
      obtain ⟨q0, hq0⟩ := hlv e (List.mem_cons_self e rest)
      have hr0 : getV e.2 rf ∈ rows := hlr e (List.mem_cons_self e rest)
      have hc0 : getV e.2 cf ∈ cols := hlc e (List.mem_cons_self e rest)
      obtain ⟨row, hrow⟩ :=
        exists_lookupKey_keysOf m (getV e.2 rf) (by rw [hkeys]; exact hr0)
      have hrowK : keysOf row = cols := hrowKeys _ row hrow
      obtain ⟨qc, hqc⟩ := hcells _ _ hr0 hc0
      have hcell : lookupKey row (getV e.2 cf) = some (.num qc) := by
        simpa [cellQ, hrow] using hqc
      have hrowget : rowGet row (getV e.2 cf) = .num qc := by
        simp [rowGet, hcell]
      have hcellQ : ∀ r c, cellQ (cmStep rf cf vf m e) r c =
          if r = getV e.2 rf ∧ c = getV e.2 cf then some (JNum.num (qc + q0))
          else cellQ m r c := by
        intro r c
        rw [cmStep, cellQ_matAddAt m _ _ _ row hrow, hrowget, hq0]
        simp [JNum.add]
      have hkeys' : keysOf (cmStep rf cf vf m e) = rows := by
        rw [cmStep, matAddAt_keys m _ _ _ row hrow]
        exact hkeys
      have hrowKeys' : ∀ r' row', lookupKey (cmStep rf cf vf m e) r' = some row' →
          keysOf row' = cols := by
        intro r' row' h'
        rw [cmStep, matAddAt_eq m _ _ _ row hrow, lookupKey_setKey] at h'
        by_cases hr' : r' = getV e.2 rf
        · rw [if_pos hr'] at h'
          have hrw : row' = setKey row (getV e.2 cf) ((rowGet row _).add _) :=
            (Option.some.injEq _ _).mp h'.symm
          rw [hrw, keysOf_setKey_mem row _ _ (by rw [hrowK]; exact hc0)]
          exact hrowK
        · rw [if_neg hr'] at h'
          exact hrowKeys r' row' h'
      have hcells' : ∀ r c, r ∈ rows → c ∈ cols →
          ∃ q : ℚ, cellQ (cmStep rf cf vf m e) r c = some (.num q) := by
        intro r c hrm hcm
        rw [hcellQ r c]
        by_cases h : r = getV e.2 rf ∧ c = getV e.2 cf
        · exact ⟨qc + q0, by rw [if_pos h]⟩
        · rw [if_neg h]
          exact hcells r c hrm hcm
      have hsum' : sumCellsQ (cmStep rf cf vf m e) = sumCellsQ m + q0 := by
        rw [cmStep, hq0, matAddAt_eq m _ _ _ row hrow, hrowget]
        have hadd : (JNum.num qc).add (.num q0) = .num (qc + q0) := by
          simp [JNum.add]
        rw [hadd]
        unfold sumCellsQ
        rw [sumBy_setKey rowSumQ m _ _ row hrow]
        have hrsum : rowSumQ (setKey row (getV e.2 cf) (.num (qc + q0)))
            = rowSumQ row + q0 := by
          unfold rowSumQ
          rw [sumBy_setKey JNum.toQ row _ _ (.num qc) hcell]
          simp [JNum.toQ]
          ring
        rw [hrsum]
        ring
      obtain ⟨ih1, ih2, ih3, ih4⟩ :=
        ih (cmStep rf cf vf m e) rows cols hkeys' hrowKeys' hcells'
          (fun e' he' => hlr e' (List.mem_cons_of_mem e he'))
          (fun e' he' => hlc e' (List.mem_cons_of_mem e he'))
          (fun e' he' => hlv e' (List.mem_cons_of_mem e he'))
      refine ⟨by simpa using ih1, by simpa using ih2, ?_, ?_⟩
      · intro r c q hq
        simp only [List.foldl_cons]
        rw [cellSumQ_cons]
        by_cases h : r = getV e.2 rf ∧ c = getV e.2 cf
        · have hqqc : qc = q := by
            have h2 : cellQ m r c = some (.num qc) := by
              rw [h.1, h.2]; exact hqc
            rw [hq] at h2
            exact (JNum.num.inj ((Option.some.injEq _ _).mp h2)).symm
          have h3 : cellQ (cmStep rf cf vf m e) r c = some (.num (q + q0)) := by
            rw [hcellQ r c, if_pos h, hqqc]
          have := ih3 r c (q + q0) h3
          rw [this]
          have hcond : getV e.2 rf = r ∧ getV e.2 cf = c := ⟨h.1.symm, h.2.symm⟩
          rw [if_pos hcond, hq0]
          simp [JNum.toQ]
          ring
        · have h3 : cellQ (cmStep rf cf vf m e) r c = some (.num q) := by
            rw [hcellQ r c, if_neg h]
            exact hq
          have := ih3 r c q h3
          rw [this]
          have hcond : ¬ (getV e.2 rf = r ∧ getV e.2 cf = c) := by
            intro hcc
            exact h ⟨hcc.1.symm, hcc.2.symm⟩
          rw [if_neg hcond]
          ring_nf
      · simp only [List.foldl_cons]
        rw [ih4, hsum', valueSumQ_cons, hq0]
        simp [JNum.toQ]
        ring

theorem createMatrix_spec (data : JData) (rf cf vf : JVal)
    (hv : ∀ e ∈ data, ∃ q : ℚ, (getV e.2 vf).toJNum = .num q) :
    keysOf (createMatrix data rf cf vf) = getVariations data rf
    ∧ (∀ r row, lookupKey (createMatrix data rf cf vf) r = some row →
        keysOf row = getVariations data cf)
    ∧ (∀ r c, r ∈ getVariations data rf → c ∈ getVariations data cf →
        cellQ (createMatrix data rf cf vf) r c
          = some (.num (cellSumQ data rf cf vf r c)))
    ∧ sumCellsQ (createMatrix data rf cf vf) = valueSumQ data vf := by
  have hcm : createMatrix data rf cf vf
      = data.foldl (cmStep rf cf vf)
          ((getVariations data rf).map
            (fun r => (r, (getVariations data cf).map (fun c => (c, JNum.num 0))))) := by
    simp [createMatrix]
  have hinitKeys : keysOf ((getVariations data rf).map
      (fun r => (r, (getVariations data cf).map (fun c => (c, JNum.num 0)))))
      = getVariations data rf := keysOf_map_pair _ _
  have hinitRows : ∀ r row,
      lookupKey ((getVariations data rf).map
        (fun r => (r, (getVariations data cf).map (fun c => (c, JNum.num 0))))) r
        = some row → keysOf row = getVariations data cf := by
    intro r row h
    rw [lookupKey_map_pair_inv _ _ row r h]
    exact keysOf_map_pair _ _
  have hinitCell : ∀ r c, r ∈ getVariations data rf → c ∈ getVariations data cf →
      cellQ ((getVariations data rf).map
        (fun r => (r, (getVariations data cf).map (fun c => (c, JNum.num 0))))) r c
        = some (JNum.num 0) := by
    intro r c hr hc
    unfold cellQ
    rw [lookupKey_map_pair _ _ r hr]
    simpa using lookupKey_map_pair _ (JNum.num 0) c hc
  have hinitSum : sumCellsQ ((getVariations data rf).map
      (fun r => (r, (getVariations data cf).map (fun c => (c, JNum.num 0))))) = 0 := by
    unfold sumCellsQ
    rw [sumBy_map_pair]
    have hz : rowSumQ ((getVariations data cf).map (fun c => (c, JNum.num 0))) = 0 := by
      unfold rowSumQ
      rw [sumBy_map_pair]
      simp [JNum.toQ]
    rw [hz]
    ring
  obtain ⟨h1, h2, h3, h4⟩ :=
    cmFold_spec rf cf vf data _ (getVariations data rf) (getVariations data cf)
      hinitKeys hinitRows
      (fun r c hr hc => ⟨0, hinitCell r c hr hc⟩)
      (fun e he => mem_getVariations data rf e he)
      (fun e he => mem_getVariations data cf e he)
      hv
  refine ⟨by rw [hcm]; exact h1, ?_, ?_, ?_⟩
  · intro r row h
    rw [hcm] at h
    exact h2 r row h
  · intro r c hr hc
    have := h3 r c 0 (hinitCell r c hr hc)
    rw [hcm, this, zero_add]
  · rw [hcm, h4, hinitSum, zero_add]

theorem matAddAt_keys_any (m : JMat) (r c : JVal) (v : JNum) :
    keysOf (matAddAt m r c v) = keysOf m := by
  rcases h : lookupKey m r with _ | row
  · unfold matAddAt
    rw [h]
  · exact matAddAt_keys m r c v row h

theorem keysOf_cmFold (rf cf vf : JVal) (l : JData) :
    ∀ m : JMat, keysOf (l.foldl (cmStep rf cf vf) m) = keysOf m := by
  induction l with
  | nil => intro m; rfl
  | cons e rest ih =>
      intro m
      simp only [List.foldl_cons]
      rw [ih, cmStep, matAddAt_keys_any]

/-- The row-key set of `createMatrix` is the enumerated row values, with
no assumption on the value field. -/
theorem keysOf_createMatrix (data : JData) (rf cf vf : JVal) :
    keysOf (createMatrix data rf cf vf) = getVariations data rf := by
  have hcm : createMatrix data rf cf vf
      = data.foldl (cmStep rf cf vf)
          ((getVariations data rf).map
            (fun r => (r, (getVariations data cf).map (fun c => (c, JNum.num 0))))) := by
    simp [createMatrix]
  rw [hcm, keysOf_cmFold, keysOf_map_pair]

/-! ## JS-value conversion lemmas -/

theorem isNum_iff (x : JNum) : x.isNum = true ↔ ∃ q : ℚ, x = .num q := by
  cases x <;> simp [JNum.isNum]

theorem jeq_str_iff (x : JVal) (s : String) : x.jeq (.str s) = true ↔ x = .str s := by
  cases x <;> simp [JVal.jeq]

theorem rowGet_isNum (fr : JRow) (p : JVal) (q : ℚ)
    (h : rowGet fr p = .num q) : lookupKey fr p = some (.num q) := by
  rcases hl : lookupKey fr p with _ | v
  · rw [rowGet, hl] at h
    cases h
  · rw [rowGet, hl] at h
    simp only [Option.getD] at h
    exact congrArg some h

/-! ## cellwiseRows lemmas -/

theorem cellwiseRows_ok (op : JNum → JNum → JNum) (A B : JMat) (colsA : List JVal) :
    ∀ rows : List JVal, (∀ ra ∈ rows, ∃ bRow, lookupKey B ra = some bRow) →
      cellwiseRows op A B colsA rows
        = .ok (rows.map (fun ra => (ra, colsA.map (fun ca =>
            (ca, op (rowGet ((lookupKey A ra).getD []) ca)
                    (rowGet ((lookupKey B ra).getD []) ca)))))) := by
  intro rows
  induction rows with
  | nil => intro _; rfl
  | cons ra rest ih =>
      intro h
      obtain ⟨bRow, hb⟩ := h ra (List.mem_cons_self ra rest)
      unfold cellwiseRows
      rw [hb, ih (fun r hr => h r (List.mem_cons_of_mem ra hr))]
      simp [hb]

theorem crossCut_keys {α : Type} (data : JObj α) (filt : List JVal) (k : JVal)
    (h : k ∈ keysOf (crossCut data filt)) : k ∈ filt := by
  unfold crossCut keysOf at h
  obtain ⟨e, he, hk⟩ := List.mem_map.mp h
  subst hk
  simpa using (List.mem_filter.mp he).2

/-! ## rollforward lemmas -/

theorem rollforward_len (fr : JRow) (ss cs : JNum) :
    ∀ (periods : List JVal) (beg : JNum),
      (rollforward fr ss cs beg periods).safetyStockPlan.length = periods.length
      ∧ (rollforward fr ss cs beg periods).cycleStockPlan.length = periods.length
      ∧ (rollforward fr ss cs beg periods).levelLoadPlan.length = periods.length
      ∧ (rollforward fr ss cs beg periods).totalInvPlan.length = periods.length
      ∧ (rollforward fr ss cs beg periods).beginningInventory.length = periods.length
      ∧ (rollforward fr ss cs beg periods).salesForecast.length = periods.length
      ∧ (rollforward fr ss cs beg periods).productionPlan.length = periods.length
      ∧ (rollforward fr ss cs beg periods).endingInventory.length = periods.length := by
  intro periods
  induction periods with
  | nil => intro beg; simp [rollforward]
  | cons p rest ih =>
      intro beg
      simp only [rollforward, List.length_cons]
      obtain ⟨h1, h2, h3, h4, h5, h6, h7, h8⟩ := ih _
      exact ⟨by rw [h1], by rw [h2], by rw [h3], by rw [h4],
             by rw [h5], by rw [h6], by rw [h7], by rw [h8]⟩

theorem rollforward_sf (fr : JRow) (ss cs : JNum) :
    ∀ (periods : List JVal) (beg : JNum) (i : ℕ), i < periods.length →
      rowVal (rollforward fr ss cs beg periods).salesForecast i
        = rowGet fr (periods.getD i JVal.jsUndefined) := by
  intro periods
  induction periods with
  | nil => intro beg i h; simp at h
  | cons p rest ih =>
      intro beg i h
      cases i with
      | zero => simp [rollforward, rowVal]
      | succ j =>
          simp only [rollforward, rowVal, List.getD_cons_succ]
          exact ih _ j (by simpa using h)

theorem rollforward_const (fr : JRow) (ss cs : JNum) :
    ∀ (periods : List JVal) (beg : JNum),
      (∀ e ∈ (rollforward fr ss cs beg periods).safetyStockPlan, e.2 = ss)
      ∧ (∀ e ∈ (rollforward fr ss cs beg periods).cycleStockPlan, e.2 = cs) := by
  intro periods
  induction periods with
  | nil => intro beg; simp [rollforward]
  | cons p rest ih =>
      intro beg
      obtain ⟨h1, h2⟩ := ih ((beg.sub (rowGet fr p)).add
        (if ((ss.add cs).add (rowGet fr p)).ltb beg then JNum.num 0
         else ((ss.add cs).add (rowGet fr p)).sub beg))
      constructor
      · intro e he
        simp only [rollforward, List.mem_cons] at he
        rcases he with he | he
        · rw [he]
        · exact h1 e he
      · intro e he
        simp only [rollforward, List.mem_cons] at he
        rcases he with he | he
        · rw [he]
        · exact h2 e he

theorem nettedProduction (t s b : ℚ) :
    (if ((JNum.num t).add (.num s)).ltb (.num b) then JNum.num 0
     else ((JNum.num t).add (.num s)).sub (.num b)) = .num (max 0 (t + s - b)) := by
  simp only [JNum.add, JNum.sub, JNum.ltb]
  by_cases h : t + s < b
  · rw [if_pos (by simpa using h)]
    congr 1
    rw [max_eq_left]
    linarith
  · rw [if_neg (by simpa using h)]
    congr 1
    rw [max_eq_right]
    linarith

theorem rollforward_main (fr : JRow) (ssq csq : ℚ) :
    ∀ (periods : List JVal) (b : ℚ),
      (∀ p ∈ periods, (rowGet fr p).isNum = true) →
      (0 < periods.length →
        rowVal (rollforward fr (.num ssq) (.num csq) (.num b) periods).beginningInventory 0
          = .num b)
      ∧ (∀ i, i + 1 < periods.length →
          rowVal (rollforward fr (.num ssq) (.num csq) (.num b) periods).beginningInventory (i+1)
            = rowVal (rollforward fr (.num ssq) (.num csq) (.num b) periods).endingInventory i)
      ∧ (∀ i, i < periods.length → ∃ bq sq : ℚ,
          rowVal (rollforward fr (.num ssq) (.num csq) (.num b) periods).beginningInventory i
            = .num bq
          ∧ rowVal (rollforward fr (.num ssq) (.num csq) (.num b) periods).salesForecast i
            = .num sq
          ∧ rowVal (rollforward fr (.num ssq) (.num csq) (.num b) periods).totalInvPlan i
            = .num (ssq + csq)
          ∧ rowVal (rollforward fr (.num ssq) (.num csq) (.num b) periods).productionPlan i
            = .num (max 0 (ssq + csq + sq - bq))
          ∧ rowVal (rollforward fr (.num ssq) (.num csq) (.num b) periods).endingInventory i
            = .num (bq - sq + max 0 (ssq + csq + sq - bq))) := by
  intro periods
  induction periods with
  | nil =>
      intro b _
      refine ⟨fun h => absurd h (by simp), fun i h => absurd h (by simp), fun i h => absurd h (by simp)⟩
  | cons p rest ih =>
      intro b hsf
      obtain ⟨s, hs⟩ := (isNum_iff _).mp (hsf p (List.mem_cons_self p rest))
      have hti : (JNum.num ssq).add (.num csq) = .num (ssq + csq) := by simp [JNum.add]
      have hed : ((JNum.num b).sub (rowGet fr p)).add
          (if (((JNum.num ssq).add (.num csq)).add (rowGet fr p)).ltb (.num b) then JNum.num 0
           else (((JNum.num ssq).add (.num csq)).add (rowGet fr p)).sub (.num b))
          = .num (b - s + max 0 (ssq + csq + s - b)) := by
        rw [hs, hti, nettedProduction]
        simp [JNum.sub, JNum.add]
      obtain ⟨ih1, ih2, ih3⟩ :=
        ih (b - s + max 0 (ssq + csq + s - b))
          (fun p' hp' => hsf p' (List.mem_cons_of_mem p hp'))
      refine ⟨?_, ?_, ?_⟩
      · intro _
        simp [rollforward, rowVal]
      · intro i hi
        cases i with
        | zero =>
            have hrest : 0 < rest.length := by simpa using hi
            simp only [rollforward, rowVal, List.getD_cons_succ, List.getD_cons_zero]
            rw [hti, hs, nettedProduction]
            have := ih1 hrest
            rw [hed] at *
            simpa [rowVal] using this
        | succ j =>
            have hj : j + 1 < rest.length := by simpa using hi
            simp only [rollforward, rowVal, List.getD_cons_succ]
            rw [hed]
            have := ih2 j hj
            simpa [rowVal] using this
      · intro i hi
        cases i with
        | zero =>
            refine ⟨b, s, ?_, ?_, ?_, ?_, ?_⟩
            · simp [rollforward, rowVal]
            · simp [rollforward, rowVal, hs]
            · simp [rollforward, rowVal, hti]
            · simp only [rollforward, rowVal, List.getD_cons_zero]
              rw [hti, hs, nettedProduction]
            · simp only [rollforward, rowVal, List.getD_cons_zero]
              rw [hed]
        | succ j =>
            have hj : j < rest.length := by simpa using hi
            obtain ⟨bq, sq, hb1, hb2, hb3, hb4, hb5⟩ := ih3 j hj
            refine ⟨bq, sq, ?_, ?_, ?_, ?_, ?_⟩ <;>
              · simp only [rollforward, rowVal, List.getD_cons_succ]
                rw [hed]
                first
                | exact hb1 | exact hb2 | exact hb3 | exact hb4 | exact hb5

/-- Destructor for a successful `generateHorizontalPlanItem` run: the
strategy stocks computed, and the plan as a rollforward — over the empty
period list when the calendar is empty, otherwise over the calendar's
keys with the forecast matrix's row for the item. -/
theorem ghpItem_ok (M : MDO) (itemKey : JVal) (itemRec : JRec) (fm : JMat) (hp : HPlan)
    (hok : generateHorizontalPlanItem M itemKey itemRec fm = .ok hp) :
    ∃ ss cs, strategyStocks itemRec M.calendar
        (maxForecastScan (filterEq M.forecast [(.str "item", itemKey)])).1
        (maxForecastScan (filterEq M.forecast [(.str "item", itemKey)])).2 = .ok (ss, cs)
      ∧ ((keysOf M.calendar = []
            ∧ hp = rollforward [] ss cs (getV itemRec (.str "currentInventory")).toJNum [])
        ∨ (keysOf M.calendar ≠ []
            ∧ ∃ fr, lookupKey fm itemKey = some fr
            ∧ hp = rollforward fr ss cs (getV itemRec (.str "currentInventory")).toJNum
                (keysOf M.calendar))) := by
  simp only [generateHorizontalPlanItem] at hok
  rcases hss : strategyStocks itemRec M.calendar
      (maxForecastScan (filterEq M.forecast [(.str "item", itemKey)])).1
      (maxForecastScan (filterEq M.forecast [(.str "item", itemKey)])).2 with e | sscs
  · rw [hss] at hok
    exact Except.noConfusion hok
  · obtain ⟨ss, cs⟩ := sscs
    rw [hss] at hok
    refine ⟨ss, cs, rfl, ?_⟩
    rcases hcal : keysOf M.calendar with _ | ⟨p, ps⟩
    · rw [hcal] at hok
      simp only at hok
      exact Or.inl ⟨rfl, (Except.ok.inj hok).symm⟩
    · rw [hcal] at hok
      simp only at hok
      rcases hfr : lookupKey fm itemKey with _ | fr
      · rw [hfr] at hok
        exact Except.noConfusion hok
      · rw [hfr] at hok
        exact Or.inr ⟨by simp, fr, rfl, (Except.ok.inj hok).symm⟩

/-- Behaviour of the highest-forecast fold from an arbitrary state:
either no record strictly exceeds the running maximum and the state is
kept, or the result is the overall maximum together with the period of
the first record attaining it. -/
theorem mfsFold_spec :
    ∀ (l : JData) (a : ℚ) (mp : Option JVal),
      (∀ e ∈ l, (fval e).isNum = true) →
      ((∀ e ∈ l, (fval e).toQ ≤ a) ∧ l.foldl mfsStep (.num a, mp) = (.num a, mp))
      ∨ (∃ A : ℚ, a < A
          ∧ (∀ e ∈ l, (fval e).toQ ≤ A)
          ∧ ∃ pre rec post, l = pre ++ rec :: post ∧ fval rec = .num A
              ∧ (∀ e ∈ pre, (fval e).toQ < A)
              ∧ l.foldl mfsStep (.num a, mp) = (.num A, some (getV rec.2 (.str "period")))) := by
  intro l
  induction l with
  | nil => intro a mp _; exact Or.inl ⟨by simp, rfl⟩
  | cons e rest ih =>
      intro a mp hv
      obtain ⟨q, hq⟩ := (isNum_iff _).mp (hv e (List.mem_cons_self e rest))
      have hq' : (getV e.2 (.str "forecast")).toJNum = JNum.num q := hq
      have hstep : mfsStep (JNum.num a, mp) e
          = if a < q then (JNum.num q, some (getV e.2 (.str "period"))) else (.num a, mp) := by
        unfold mfsStep
        rw [hq']
        simp [JNum.gtb, JNum.ltb]
      by_cases hlt : a < q
      · rw [List.foldl_cons, hstep, if_pos hlt]
        rcases ih q (some (getV e.2 (.str "period")))
            (fun e' he' => hv e' (List.mem_cons_of_mem e he')) with ⟨hle, heq⟩ | hR
        · refine Or.inr ⟨q, hlt, ?_, [], e, rest, by simp, hq, by simp, heq⟩
          intro e' he'
          rcases List.mem_cons.mp he' with h | h
          · rw [h, hq]; simp [JNum.toQ]
          · exact hle e' h
        · obtain ⟨A, hA, hbound, pre, rec, post, hdecomp, hrec, hpre, hfold⟩ := hR
          refine Or.inr ⟨A, lt_trans hlt hA, ?_, e :: pre, rec, post, by simp [hdecomp], hrec, ?_, hfold⟩
          · intro e' he'
            rcases List.mem_cons.mp he' with h | h
            · rw [h, hq]
              simp only [JNum.toQ]
              exact le_of_lt hA
            · exact hbound e' h
          · intro e' he'
            rcases List.mem_cons.mp he' with h | h
            · rw [h, hq]
              simpa [JNum.toQ] using hA
            · exact hpre e' h
      · rw [List.foldl_cons, hstep, if_neg hlt]
        rcases ih a mp (fun e' he' => hv e' (List.mem_cons_of_mem e he')) with ⟨hle, heq⟩ | hR
        · refine Or.inl ⟨?_, heq⟩
          intro e' he'
          rcases List.mem_cons.mp he' with h | h
          · rw [h, hq]
            simp only [JNum.toQ]
            exact le_of_not_lt hlt
          · exact hle e' h
        · obtain ⟨A, hA, hbound, pre, rec, post, hdecomp, hrec, hpre, hfold⟩ := hR
          refine Or.inr ⟨A, hA, ?_, e :: pre, rec, post, by simp [hdecomp], hrec, ?_, hfold⟩
          · intro e' he'
            rcases List.mem_cons.mp he' with h | h
            · rw [h, hq]
              simp only [JNum.toQ]
              exact le_of_lt (lt_of_le_of_lt (le_of_not_lt hlt) hA)
            · exact hbound e' h
          · intro e' he'
            rcases List.mem_cons.mp he' with h | h
            · rw [h, hq]
              simp only [JNum.toQ]
              exact lt_of_le_of_lt (le_of_not_lt hlt) hA
            · exact hpre e' h



/-! ## Claim theorems -/

/-- Claim C1: `matrix_mult` is claimed to pair entries of A's columns and
B's rows by key equality.  The code pairs them by position: on matrices
whose shared key set {x, y} was inserted in opposite orders it computes
1·10 + 2·100 = 210, while the key-paired dot product is
1·100 + 2·10 = 120. -/
theorem matrix_mult_pairs_by_position :
    matrix_mult fixMulA fixMulB = .ok [(.str "r", [(.str "c", .num 210)])]
    ∧ ((rowGet [(.str "x", .num 1), (.str "y", .num 2)] (.str "x")).mul
          (rowGet [(.str "c", JNum.num 100)] (.str "c"))).add
        ((rowGet [(.str "x", .num 1), (.str "y", .num 2)] (.str "y")).mul
          (rowGet [(.str "c", JNum.num 10)] (.str "c"))) = .num 120
    ∧ JNum.num 210 ≠ .num 120 := by
  refine ⟨?_, ?_, by norm_num⟩
  · norm_num +decide [matrix_mult, fixMulA, fixMulB, keysOf, firstRowKeys, lookupKey,
      rowGet, JNum.add, JNum.mul, List.foldl, List.zip, List.zipWith, Option.getD]
  · norm_num +decide [rowGet, lookupKey, JNum.add, JNum.mul, Option.getD]

/-- Claim C9: `filter` with the `"<"` comparison is claimed to return
exactly the records with the field strictly below the bound.  The record
r1 has x = 1 < 5, yet the branch returns the empty set: its test uses `>`
and its body is a bare comparison expression that assigns nothing. -/
theorem filter_lt_returns_nothing :
    dataFilter [(.str "r1", [(.str "x", .jnum (.num 1))])]
        [(.str "x", .jnum (.num 5))] "<" = .ok []
    ∧ (JNum.num 1).ltb (.num 5) = true := by
  exact ⟨rfl, by norm_num [JNum.ltb]⟩

/-- Claim C3, counterexample: a constrained resource with capacity 0 and
aggregate load 110 does not raise any error — `calculateRYG` returns a
matrix with an Infinity cell. -/
theorem calculateRYG_zero_capacity_returns_infinity :
    calculateRYG fixConsZero fixAgg = .ok [(.str "R", [(.str "P", .posInf)])] := by
  norm_num +decide [calculateRYG, createMatrix, cmStep, matAddAt, gvStep, getVariations,
    setKey, lookupKey, keysOf, getV, rowGet, crossCut, piecewiseDivision, cellwiseRows,
    firstRowKeys, JVal.toJNum, JNum.add, JNum.div, fixConsZero, fixAgg, Option.getD,
    List.foldl, List.filter]

/-- Claim C5, counterexample: `difference` and `piecewiseDivision` on
matrices with equal key counts but different column-key sets return a
NaN-filled matrix instead of failing with the DimensionMismatch error. -/
theorem difference_mismatched_key_sets_no_error :
    difference fixSubA fixSubB = .ok [(.str "r", [(.str "x", .nan)])]
    ∧ piecewiseDivision fixSubA fixSubB = .ok [(.str "r", [(.str "x", .nan)])]
    ∧ firstRowKeys fixSubA = .ok [.str "x"]
    ∧ firstRowKeys fixSubB = .ok [.str "y"]
    ∧ (JVal.str "x" : JVal) ≠ .str "y" := by
  exact ⟨rfl, rfl, rfl, rfl, by decide⟩

/-- Claim C2: for every item whose inputs are well-formed numbers, the
rollforward satisfies: Beginning Inventory of the first period is the
item's current inventory; each later Beginning Inventory is the previous
Ending Inventory; Production Plan is max(0, Total Inventory Plan + Sales
Forecast − Beginning Inventory), hence never negative; and Ending
Inventory is Beginning − Sales Forecast + Production. -/
theorem horizontalPlan_rollforward_recurrences
    (M : MDO) (itemKey : JVal) (itemRec : JRec) (fm : JMat) (hp : HPlan)
    (fr : JRow) (ssq csq c0 : ℚ)
    (hfm : fm = createMatrix M.forecast (.str "item") (.str "period") (.str "forecast"))
    (hok : generateHorizontalPlanItem M itemKey itemRec fm = .ok hp)
    (hstocks : strategyStocks itemRec M.calendar
        (maxForecastScan (filterEq M.forecast [(.str "item", itemKey)])).1
        (maxForecastScan (filterEq M.forecast [(.str "item", itemKey)])).2
        = .ok (.num ssq, .num csq))
    (hc0 : (getV itemRec (.str "currentInventory")).toJNum = .num c0)
    (hfr : lookupKey fm itemKey = some fr)
    (hsf : ∀ p ∈ keysOf M.calendar, (rowGet fr p).isNum = true) :
    (0 < (keysOf M.calendar).length → rowVal hp.beginningInventory 0 = .num c0)
    ∧ (∀ i, i + 1 < (keysOf M.calendar).length →
        rowVal hp.beginningInventory (i+1) = rowVal hp.endingInventory i)
    ∧ (∀ i, i < (keysOf M.calendar).length → ∃ bq sq : ℚ,
        rowVal hp.beginningInventory i = .num bq
        ∧ rowVal hp.salesForecast i = .num sq
        ∧ rowVal hp.totalInvPlan i = .num (ssq + csq)
        ∧ rowVal hp.productionPlan i = .num (max 0 (ssq + csq + sq - bq))
        ∧ 0 ≤ max 0 (ssq + csq + sq - bq)
        ∧ rowVal hp.endingInventory i = .num (bq - sq + max 0 (ssq + csq + sq - bq))) := by
  obtain ⟨ss, cs, hss, hcase⟩ := ghpItem_ok M itemKey itemRec fm hp hok
  have hpair : (ss, cs) = ((.num ssq : JNum), (.num csq : JNum)) :=
    Except.ok.inj (hss.symm.trans hstocks)
  have hssq : ss = .num ssq := congrArg Prod.fst hpair
  have hcsq : cs = .num csq := congrArg Prod.snd hpair
  rcases hcase with ⟨hcal, hhp⟩ | ⟨hne, fr2, hfr2, hhp⟩
  · rw [hcal]
    refine ⟨fun h => absurd h (by simp), fun i h => absurd h (by simp),
            fun i h => absurd h (by simp)⟩
  · have hfr3 : fr2 = fr := Option.some.inj (hfr2.symm.trans hfr)
    rw [hfr3, hssq, hcsq, hc0] at hhp
    obtain ⟨hmain1, hmain2, hmain3⟩ :=
      rollforward_main fr ssq csq (keysOf M.calendar) c0 hsf
    refine ⟨?_, ?_, ?_⟩
    · intro h
      rw [hhp]
      exact hmain1 h
    · intro i h
      rw [hhp]
      exact hmain2 i h
    · intro i h
      obtain ⟨bq, sq, h1, h2, h3, h4, h5⟩ := hmain3 i h
      rw [hhp]
      exact ⟨bq, sq, h1, h2, h3, h4, le_max_left 0 _, h5⟩

/-- Witness for C2 at the concrete `fixPlanMDO` instance: the plan opens
at the current inventory 50 and period p2 opens at p1's ending 66. -/
theorem horizontalPlan_rollforward_recurrences_witness :
    rowVal fixPlan.beginningInventory 0 = .num 50
    ∧ rowVal fixPlan.beginningInventory 1 = rowVal fixPlan.endingInventory 0 := by
  have h := horizontalPlan_rollforward_recurrences fixPlanMDO (.str "A") fixPlanRec
    (createMatrix fixPlanMDO.forecast (.str "item") (.str "period") (.str "forecast"))
    fixPlan fixPlanRow 16 50 50 rfl
    (by norm_num +decide [generateHorizontalPlanItem, createMatrix, cmStep,
      matAddAt, gvStep, getVariations, filterEq, setKey, lookupKey, keysOf, getV, rowGet,
      maxForecastScan, mfsStep, strategyStocks, rollforward, JVal.toJNum, JVal.jeq,
      JNum.add, JNum.sub, JNum.mul, JNum.div, JNum.ltb, JNum.gtb, JNum.round,
      fixPlanMDO, fixPlan, fixPlanRec, fixPlanRow, Option.bind, Option.getD, List.foldl])
    (by norm_num +decide [strategyStocks, maxForecastScan, mfsStep, filterEq, setKey,
      lookupKey, keysOf, getV, fixPlanMDO, fixPlanRec, JVal.toJNum, JVal.jeq, JNum.gtb,
      JNum.ltb, JNum.div, JNum.mul, JNum.round, Option.bind, Option.getD, List.foldl])
    rfl
    (by norm_num +decide [createMatrix, cmStep, matAddAt, gvStep, getVariations, setKey,
      lookupKey, keysOf, getV, rowGet, JVal.toJNum, JNum.add, fixPlanMDO, fixPlanRow,
      Option.getD, List.foldl])
    (by decide)
  exact ⟨h.1 (by decide), h.2.1 0 (by decide)⟩


/-- Claim C7, counterexample: on `fixGapMDO` the pair (A, p2) is absent
from the forecast records, yet the Sales Forecast cell for p2 is NaN
(JS `undefined`), not the claimed 0. -/
theorem salesForecast_missing_period_not_zero :
    generateHorizontalPlan fixGapMDO = .ok [(.str "A", fixGapPlan)]
    ∧ rowKey fixGapPlan.salesForecast 1 = .str "p2"
    ∧ rowVal fixGapPlan.salesForecast 1 = .nan
    ∧ JNum.nan ≠ .num 0
    ∧ (∀ e ∈ fixGapMDO.forecast,
        ¬(getV e.2 (.str "item") = .str "A" ∧ getV e.2 (.str "period") = .str "p2")) := by
  refine ⟨?_, rfl, rfl, by decide, by decide⟩
  norm_num +decide [generateHorizontalPlan, generateHorizontalPlanItem, createMatrix, cmStep,
    matAddAt, gvStep, getVariations, filterEq, setKey, lookupKey, keysOf, getV, rowGet,
    maxForecastScan, mfsStep, strategyStocks, rollforward, JVal.toJNum, JVal.jeq,
    JNum.add, JNum.sub, JNum.mul, JNum.div, JNum.ltb, JNum.gtb, JNum.round,
    fixGapMDO, fixGapPlan, Option.bind, Option.getD, List.foldl, List.mapM, List.mapM.loop,
    Except.map]

/-- Claim C7, amended: the Sales Forecast row stores the raw forecast
matrix lookup.  It is 0 exactly when the (item, period) pair is absent
but the item and the period each occur in some forecast record; a period
occurring in no forecast record reads as NaN (JS `undefined`); and an
item occurring in no forecast record makes the generator fail with a
TypeError instead of producing a plan. -/
theorem salesForecast_lookup_semantics
    (M : MDO) (itemKey : JVal) (itemRec : JRec) (fm : JMat) (hp : HPlan) (fr : JRow)
    (hfm : fm = createMatrix M.forecast (.str "item") (.str "period") (.str "forecast"))
    (hok : generateHorizontalPlanItem M itemKey itemRec fm = .ok hp)
    (hfr : lookupKey fm itemKey = some fr)
    (hv : ∀ e ∈ M.forecast, ((getV e.2 (.str "forecast")).toJNum).isNum = true) :
    (∀ i, i < (keysOf M.calendar).length →
        rowVal hp.salesForecast i = rowGet fr ((keysOf M.calendar).getD i .jsUndefined))
    ∧ (∀ p, p ∈ getVariations M.forecast (.str "period") →
        (∀ e ∈ M.forecast, ¬(getV e.2 (.str "item") = itemKey
            ∧ getV e.2 (.str "period") = p)) →
        rowGet fr p = .num 0)
    ∧ (∀ p, p ∉ getVariations M.forecast (.str "period") → rowGet fr p = .nan)
    ∧ (∀ (M2 : MDO) (itemKey2 : JVal) (itemRec2 : JRec) (hp2 : HPlan),
        itemKey2 ∉ getVariations M2.forecast (.str "item") →
        keysOf M2.calendar ≠ [] →
        generateHorizontalPlanItem M2 itemKey2 itemRec2
          (createMatrix M2.forecast (.str "item") (.str "period") (.str "forecast"))
          ≠ .ok hp2) := by
  have hv2 : ∀ e ∈ M.forecast, ∃ q : ℚ, (getV e.2 (.str "forecast")).toJNum = .num q :=
    fun e he => (isNum_iff _).mp (hv e he)
  obtain ⟨hk1, hk2, hk3, _⟩ :=
    createMatrix_spec M.forecast (.str "item") (.str "period") (.str "forecast") hv2
  refine ⟨?_, ?_, ?_, ?_⟩
  · intro i hi
    obtain ⟨ss, cs, _, hcase⟩ := ghpItem_ok M itemKey itemRec fm hp hok
    rcases hcase with ⟨hcal, _⟩ | ⟨_, fr2, hfr2, hhp⟩
    · rw [hcal] at hi
      exact absurd hi (by simp)
    · have hfr3 : fr2 = fr := Option.some.inj (hfr2.symm.trans hfr)
      rw [hhp, hfr3]
      exact rollforward_sf fr ss cs (keysOf M.calendar) _ i hi
  · intro p hpmem hnone
    have hitem : itemKey ∈ getVariations M.forecast (.str "item") := by
      rw [← hk1, ← hfm]
      exact lookupKey_mem_keysOf fm itemKey fr hfr
    have hcell := hk3 itemKey p hitem hpmem
    rw [← hfm] at hcell
    have hlook : lookupKey fr p
        = some (.num (cellSumQ M.forecast (.str "item") (.str "period") (.str "forecast")
            itemKey p)) := by
      simpa [cellQ, hfr] using hcell
    have hzero : cellSumQ M.forecast (.str "item") (.str "period") (.str "forecast")
        itemKey p = 0 := by
      have hnil : M.forecast.filter
          (recMatches (.str "item") (.str "period") itemKey p) = [] := by
        rw [List.filter_eq_nil_iff]
        intro e he
        simp only [recMatches, Bool.and_eq_true, decide_eq_true_eq, not_and]
        intro h1 h2
        exact hnone e he ⟨h1, h2⟩
      simp [cellSumQ, hnil]
    rw [rowGet, hlook, hzero]
    rfl
  · intro p hpnot
    have hkeys : keysOf fr = getVariations M.forecast (.str "period") := by
      apply hk2 itemKey
      rw [← hfm]
      exact hfr
    have hnone : lookupKey fr p = none := by
      rw [lookupKey_none_keysOf, hkeys]
      exact hpnot
    rw [rowGet, hnone]
    rfl
  · intro M2 itemKey2 itemRec2 hp2 hnot hne hok2
    obtain ⟨ss, cs, _, hcase⟩ := ghpItem_ok M2 itemKey2 itemRec2 _ hp2 hok2
    rcases hcase with ⟨hcal, _⟩ | ⟨_, fr2, hfr2, _⟩
    · exact hne hcal
    · apply hnot
      rw [← keysOf_createMatrix M2.forecast (.str "item") (.str "period") (.str "forecast")]
      exact lookupKey_mem_keysOf _ itemKey2 fr2 hfr2

/-- Witness for the amended C7 at `fixGapMDO`: the p1 cell equals the
matrix lookup, and the p2 lookup — p2 occurs in no forecast record — is
NaN. -/
theorem salesForecast_lookup_semantics_witness :
    rowVal fixGapPlan.salesForecast 0 = rowGet fixGapRow (.str "p1")
    ∧ rowGet fixGapRow (.str "p2") = .nan := by
  have h := salesForecast_lookup_semantics fixGapMDO (.str "A") fixGapRec
    (createMatrix fixGapMDO.forecast (.str "item") (.str "period") (.str "forecast"))
    fixGapPlan fixGapRow rfl
    (by norm_num +decide [generateHorizontalPlanItem, createMatrix, cmStep,
      matAddAt, gvStep, getVariations, filterEq, setKey, lookupKey, keysOf, getV, rowGet,
      maxForecastScan, mfsStep, strategyStocks, rollforward, JVal.toJNum, JVal.jeq,
      JNum.add, JNum.sub, JNum.mul, JNum.div, JNum.ltb, JNum.gtb, JNum.round,
      fixGapMDO, fixGapPlan, fixGapRec, fixGapRow, Option.bind, Option.getD, List.foldl])
    (by norm_num +decide [createMatrix, cmStep, matAddAt, gvStep, getVariations, setKey,
      lookupKey, keysOf, getV, rowGet, JVal.toJNum, JNum.add, fixGapMDO, fixGapRow,
      Option.getD, List.foldl])
    (by decide)
  exact ⟨h.1 0 (by decide), h.2.2.1 (.str "p2") (by decide)⟩


/-- Claim C8: the highest-forecast period is selected with ties broken to
the first record in iteration order; the fast strategy sets safety stock
round(maxForecast / days × 8) and cycle stock round(FOQ × 0.5) (factor 20
for the slow strategy, both zero otherwise); and both values are constant
across every period of the item's plan. -/
theorem strategy_stocks_from_max_period
    (M : MDO) (itemKey : JVal) (itemRec : JRec) (fm : JMat) (hp : HPlan)
    (ss cs : JNum)
    (hok : generateHorizontalPlanItem M itemKey itemRec fm = .ok hp)
    (hstocks : strategyStocks itemRec M.calendar
        (maxForecastScan (filterEq M.forecast [(.str "item", itemKey)])).1
        (maxForecastScan (filterEq M.forecast [(.str "item", itemKey)])).2
        = .ok (ss, cs))
    (hv : ∀ e ∈ filterEq M.forecast [(.str "item", itemKey)], (fval e).isNum = true)
    (hpos : ∃ e ∈ filterEq M.forecast [(.str "item", itemKey)],
        (JNum.num 0).ltb (fval e) = true) :
    ∃ (A : ℚ) (pre : JData) (rc : JVal × JRec) (post : JData),
      filterEq M.forecast [(.str "item", itemKey)] = pre ++ rc :: post
      ∧ fval rc = .num A
      ∧ (∀ e ∈ filterEq M.forecast [(.str "item", itemKey)], (fval e).toQ ≤ A)
      ∧ (∀ e ∈ pre, (fval e).toQ < A)
      ∧ maxForecastScan (filterEq M.forecast [(.str "item", itemKey)])
          = (.num A, some (getV rc.2 (.str "period")))
      ∧ (∀ (calRec : JRec) (d foq : ℚ),
          lookupKey M.calendar (getV rc.2 (.str "period")) = some calRec →
          (getV calRec (.str "days")).toJNum = .num d → d ≠ 0 →
          (getV itemRec (.str "FOQ")).toJNum = .num foq →
          ((getV itemRec (.str "strategy") = .str "Reactive Level Load - Fast" →
              ss = .num (jsRound (A / d * 8)) ∧ cs = .num (jsRound (foq * (1/2))))
           ∧ (getV itemRec (.str "strategy") = .str "Reactive Level Load - Slow" →
              ss = .num (jsRound (A / d * 20)) ∧ cs = .num (jsRound (foq * (1/2))))))
      ∧ (getV itemRec (.str "strategy") ≠ .str "Reactive Level Load - Fast" →
          getV itemRec (.str "strategy") ≠ .str "Reactive Level Load - Slow" →
          ss = .num 0 ∧ cs = .num 0)
      ∧ (∀ e ∈ hp.safetyStockPlan, e.2 = ss)
      ∧ (∀ e ∈ hp.cycleStockPlan, e.2 = cs) := by
  rcases mfsFold_spec (filterEq M.forecast [(.str "item", itemKey)]) 0 none hv with
    ⟨hle, _⟩ | ⟨A, hA0, hbound, pre, rc, post, hdecomp, hrec, hpre, hfold⟩
  · obtain ⟨e, he, hgt⟩ := hpos
    obtain ⟨q, hq⟩ := (isNum_iff _).mp (hv e he)
    rw [hq] at hgt
    simp only [JNum.ltb, decide_eq_true_eq] at hgt
    have := hle e he
    rw [hq] at this
    simp only [JNum.toQ] at this
    linarith
  · have hscan : maxForecastScan (filterEq M.forecast [(.str "item", itemKey)])
        = (.num A, some (getV rc.2 (.str "period"))) := hfold
    rw [hscan] at hstocks
    refine ⟨A, pre, rc, post, hdecomp, hrec, hbound, hpre, hscan, ?_, ?_, ?_, ?_⟩
    · intro calRec d foq hcal hd hdne hfoq
      constructor
      · intro hstr
        rw [strategyStocks] at hstocks
        rw [hstr] at hstocks
        simp only [JVal.jeq, decide_eq_true_eq, if_true, reduceIte] at hstocks
        simp only [Option.some_bind, hcal] at hstocks
        rw [hd, hfoq] at hstocks
        have hdiv : (JNum.num A).div (.num d) = .num (A / d) := by
          simp [JNum.div, hdne]
        rw [hdiv] at hstocks
        simp only [JNum.mul, JNum.round] at hstocks
        have := Except.ok.inj hstocks
        exact ⟨(congrArg Prod.fst this).symm, (congrArg Prod.snd this).symm⟩
      · intro hstr
        rw [strategyStocks] at hstocks
        rw [hstr] at hstocks
        simp only [JVal.jeq, decide_eq_true_eq, reduceIte] at hstocks
        simp only [Option.some_bind, hcal] at hstocks
        rw [hd, hfoq] at hstocks
        have hdiv : (JNum.num A).div (.num d) = .num (A / d) := by
          simp [JNum.div, hdne]
        rw [hdiv] at hstocks
        simp only [JNum.mul, JNum.round] at hstocks
        have := Except.ok.inj hstocks
        exact ⟨(congrArg Prod.fst this).symm, (congrArg Prod.snd this).symm⟩
    · intro hne1 hne2
      have hb1 : (getV itemRec (.str "strategy")).jeq (.str "Reactive Level Load - Fast")
          = false := by
        rw [← Bool.not_eq_true, jeq_str_iff]
        exact hne1
      have hb2 : (getV itemRec (.str "strategy")).jeq (.str "Reactive Level Load - Slow")
          = false := by
        rw [← Bool.not_eq_true, jeq_str_iff]
        exact hne2
      rw [strategyStocks] at hstocks
      rw [hb1, hb2] at hstocks
      simp only [Bool.false_eq_true, if_false] at hstocks
      have := Except.ok.inj hstocks
      exact ⟨(congrArg Prod.fst this).symm, (congrArg Prod.snd this).symm⟩
    · obtain ⟨ss2, cs2, hss2, hcase⟩ := ghpItem_ok M itemKey itemRec fm hp hok
      rw [hscan] at hss2
      have hpair : (ss2, cs2) = (ss, cs) := Except.ok.inj (hss2.symm.trans hstocks)
      have hss : ss2 = ss := (Prod.mk.inj hpair).1
      rcases hcase with ⟨_, hhp⟩ | ⟨_, fr2, _, hhp⟩ <;>
        · rw [hhp, ← hss]
          exact (rollforward_const _ _ _ _ _).1
    · obtain ⟨ss2, cs2, hss2, hcase⟩ := ghpItem_ok M itemKey itemRec fm hp hok
      rw [hscan] at hss2
      have hpair : (ss2, cs2) = (ss, cs) := Except.ok.inj (hss2.symm.trans hstocks)
      have hcs : cs2 = cs := (Prod.mk.inj hpair).2
      rcases hcase with ⟨_, hhp⟩ | ⟨_, fr2, _, hhp⟩ <;>
        · rw [hhp, ← hcs]
          exact (rollforward_const _ _ _ _ _).2


/-- Witness for C8 at `fixPlanMDO`: the max-forecast period is p2 with
60 over 30 days, so the fast strategy yields safety stock
round(60/30 × 8) = 16 and cycle stock round(100 × 0.5) = 50. -/
theorem strategy_stocks_from_max_period_witness :
    rowVal fixPlan.safetyStockPlan 0 = .num (jsRound (60 / 30 * 8))
    ∧ rowVal fixPlan.cycleStockPlan 0 = .num (jsRound (100 * (1/2))) := by
  have h := strategy_stocks_from_max_period fixPlanMDO (.str "A") fixPlanRec
    (createMatrix fixPlanMDO.forecast (.str "item") (.str "period") (.str "forecast"))
    fixPlan (.num 16) (.num 50)
    (by norm_num +decide [generateHorizontalPlanItem, createMatrix, cmStep,
      matAddAt, gvStep, getVariations, filterEq, setKey, lookupKey, keysOf, getV, rowGet,
      maxForecastScan, mfsStep, strategyStocks, rollforward, JVal.toJNum, JVal.jeq,
      JNum.add, JNum.sub, JNum.mul, JNum.div, JNum.ltb, JNum.gtb, JNum.round,
      fixPlanMDO, fixPlan, fixPlanRec, fixPlanRow, Option.bind, Option.getD, List.foldl])
    (by norm_num +decide [strategyStocks, maxForecastScan, mfsStep, filterEq, setKey,
      lookupKey, keysOf, getV, fixPlanMDO, fixPlanRec, JVal.toJNum, JVal.jeq, JNum.gtb,
      JNum.ltb, JNum.div, JNum.mul, JNum.round, Option.bind, Option.getD, List.foldl])
    (by decide) (by decide)
  obtain ⟨A, pre, rc, post, hdec, hrecA, hub, hpre2, hscan, hforms, hother, hc1, hc2⟩ := h
  have hval : maxForecastScan (filterEq fixPlanMDO.forecast [(.str "item", .str "A")])
      = (.num 60, some (.str "p2")) := by
    norm_num +decide [maxForecastScan, mfsStep, filterEq, setKey, lookupKey, keysOf,
      getV, fixPlanMDO, JVal.toJNum, JVal.jeq, JNum.gtb, JNum.ltb, List.foldl]
  rw [hval] at hscan
  obtain ⟨hA, hper⟩ := Prod.mk.inj hscan
  have hA60 : A = 60 := (JNum.num.inj hA).symm
  have hper2 : getV rc.2 (.str "period") = .str "p2" := (Option.some.inj hper).symm
  have hcal : lookupKey fixPlanMDO.calendar (getV rc.2 (.str "period"))
      = some [(.str "days", .jnum (.num 30))] := by
    rw [hper2]
    rfl
  obtain ⟨hfast, _⟩ := hforms [(.str "days", .jnum (.num 30))] 30 100 hcal rfl
    (by norm_num) rfl
  obtain ⟨hss, hcs⟩ := hfast rfl
  rw [hA60] at hss
  constructor
  · rw [show rowVal fixPlan.safetyStockPlan 0 = .num 16 from rfl]
    exact hss
  · rw [show rowVal fixPlan.cycleStockPlan 0 = .num 50 from rfl]
    exact hcs


/-- Claim C4: `createMatrix` is complete — every row value appearing in
some record has an entry for every column value appearing in some record,
a cell no record populates holds 0 — and the rational total of all cells
equals the total of the value field over all records. -/
theorem createMatrix_complete_and_total (data : JData) (rf cf vf : JVal)
    (hv : ∀ e ∈ data, ((getV e.2 vf).toJNum).isNum = true) :
    (∀ r c, (∃ e ∈ data, getV e.2 rf = r) → (∃ e ∈ data, getV e.2 cf = c) →
      ∃ row v, lookupKey (createMatrix data rf cf vf) r = some row
        ∧ lookupKey row c = some v
        ∧ ((∀ e ∈ data, ¬(getV e.2 rf = r ∧ getV e.2 cf = c)) → v = .num 0))
    ∧ sumCellsQ (createMatrix data rf cf vf) = valueSumQ data vf := by
  have hv2 : ∀ e ∈ data, ∃ q : ℚ, (getV e.2 vf).toJNum = .num q :=
    fun e he => (isNum_iff _).mp (hv e he)
  obtain ⟨hk1, hk2, hk3, hk4⟩ := createMatrix_spec data rf cf vf hv2
  refine ⟨?_, hk4⟩
  rintro r c ⟨e1, he1, hr⟩ ⟨e2, he2, hc⟩
  have hrmem : r ∈ getVariations data rf := hr ▸ mem_getVariations data rf e1 he1
  have hcmem : c ∈ getVariations data cf := hc ▸ mem_getVariations data cf e2 he2
  have hcell := hk3 r c hrmem hcmem
  rcases hrow : lookupKey (createMatrix data rf cf vf) r with _ | row
  · rw [cellQ, hrow] at hcell
    cases hcell
  · have hlook : lookupKey row c = some (.num (cellSumQ data rf cf vf r c)) := by
      simpa [cellQ, hrow] using hcell
    refine ⟨row, .num (cellSumQ data rf cf vf r c), rfl, hlook, ?_⟩
    intro hnone
    have hnil : data.filter (recMatches rf cf r c) = [] := by
      rw [List.filter_eq_nil_iff]
      intro e he
      simp only [recMatches, Bool.and_eq_true, decide_eq_true_eq, not_and]
      intro h1 h2
      exact hnone e he ⟨h1, h2⟩
    simp [cellSumQ, hnil]

/-- Witness for C4 on the two-record forecast data of `fixPlanMDO`:
values are numeric and the cell total 40 + 60 matches the record total. -/
theorem createMatrix_complete_and_total_witness :
    (∀ e ∈ fixPlanMDO.forecast, ((getV e.2 (.str "forecast")).toJNum).isNum = true)
    ∧ sumCellsQ (createMatrix fixPlanMDO.forecast (.str "item") (.str "period")
        (.str "forecast"))
      = valueSumQ fixPlanMDO.forecast (.str "forecast") :=
  ⟨by decide,
   (createMatrix_complete_and_total fixPlanMDO.forecast (.str "item") (.str "period")
      (.str "forecast") (by decide)).2⟩


/-- The maximum component of `calc`'s scrape is the fold of `max` over
the column's values, seeded with the initial 0. -/
theorem scrapeFold_max (column : JVal) :
    ∀ (l : JData) (m : ℚ) (mn : JNum),
      (∀ e ∈ l, ((getV e.2 column).toJNum).isNum = true) →
      (l.foldl (scrapeStep column) (.num m, mn)).1
        = .num (l.foldl (fun a e => max a ((getV e.2 column).toJNum.toQ)) m) := by
  intro l
  induction l with
  | nil => intro m mn _; rfl
  | cons e rest ih =>
      intro m mn hv
      obtain ⟨q, hq⟩ := (isNum_iff _).mp (hv e (List.mem_cons_self e rest))
      have hstep : scrapeStep column (.num m, mn) e
          = (.num (max m q), if (JNum.num q).ltb mn then .num q else mn) := by
        unfold scrapeStep
        rw [hq]
        by_cases h : m < q
        · simp [JNum.gtb, JNum.ltb, h, max_eq_right (le_of_lt h)]
        · simp [JNum.gtb, JNum.ltb, h, max_eq_left (le_of_not_lt h)]
      rw [List.foldl_cons, hstep,
        ih (max m q) _ (fun e2 he2 => hv e2 (List.mem_cons_of_mem e he2)),
        List.foldl_cons, hq]
      simp [JNum.toQ]

/-- Folding `max` from 0 over only negative values stays 0. -/
theorem foldl_max_zero_of_neg (column : JVal) :
    ∀ l : JData, (∀ e ∈ l, ((getV e.2 column).toJNum.toQ) < 0) →
      l.foldl (fun a e => max a ((getV e.2 column).toJNum.toQ)) 0 = 0 := by
  intro l
  induction l with
  | nil => intro _; rfl
  | cons e rest ih =>
      intro hneg
      rw [List.foldl_cons,
        max_eq_left (le_of_lt (hneg e (List.mem_cons_self e rest)))]
      exact ih (fun e2 he2 => hneg e2 (List.mem_cons_of_mem e he2))

/-- Claim C10 (implicit behaviour): `calc` starts its running maximum at
0, so on a non-empty record set with numeric values the reported max is
the maximum of 0 and the column's largest value; when every value is
negative the reported max is 0, which is not a value of the data. -/
theorem calc_max_clamped_at_zero (data : JData) (column : JVal)
    (hne : data ≠ [])
    (hv : ∀ e ∈ data, ((getV e.2 column).toJNum).isNum = true) :
    (calcMaxMin data column).1
      = .num (data.foldl (fun a e => max a ((getV e.2 column).toJNum.toQ)) 0)
    ∧ ((∀ e ∈ data, ((getV e.2 column).toJNum.toQ) < 0) →
        (calcMaxMin data column).1 = .num 0
        ∧ ∀ e ∈ data, (getV e.2 column).toJNum ≠ .num 0) := by
  have h1 : (calcMaxMin data column).1
      = .num (data.foldl (fun a e => max a ((getV e.2 column).toJNum.toQ)) 0) :=
    scrapeFold_max column data 0 .posInf hv
  refine ⟨h1, fun hneg => ⟨?_, ?_⟩⟩
  · rw [h1, foldl_max_zero_of_neg column data hneg]
  · intro e he hz
    have := hneg e he
    rw [hz] at this
    simp [JNum.toQ] at this

/-- Witness for C10: two records with values −3 and −7 — the reported
max is 0, which neither record holds. -/
theorem calc_max_clamped_at_zero_witness :
    ([(.str "a", [(.str "v", .jnum (.num (-3)))]),
      (.str "b", [(.str "v", .jnum (.num (-7)))])] : JData) ≠ []
    ∧ (calcMaxMin [(.str "a", [(.str "v", .jnum (.num (-3)))]),
        (.str "b", [(.str "v", .jnum (.num (-7)))])] (.str "v")).1 = .num 0 := by
  refine ⟨by decide, ?_⟩
  have h := calc_max_clamped_at_zero
    [(.str "a", [(.str "v", .jnum (.num (-3)))]),
     (.str "b", [(.str "v", .jnum (.num (-7)))])] (.str "v")
    (by decide) (by decide)
  exact (h.2 (by decide)).1


/-- Claim C5, amended: with both matrices non-empty, `difference` and
`piecewiseDivision` raise the DimensionMismatch error exactly when the
row-key counts or the column-key counts differ; an empty argument
instead throws a TypeError, because the column-key enumeration runs
before the check.  With matching counts and B's rows covering A's row
keys, each cell (r, c) — r, c ranging over A's keys — combines A[r][c]
with B[r][c] read at A's keys. -/
theorem difference_division_count_check_and_cells (A B : JMat) :
    (A = [] →
      difference A B = .error "TypeError: cannot convert undefined or null to object"
      ∧ piecewiseDivision A B
          = .error "TypeError: cannot convert undefined or null to object")
    ∧ (A ≠ [] → B = [] →
      difference A B = .error "TypeError: cannot convert undefined or null to object"
      ∧ piecewiseDivision A B
          = .error "TypeError: cannot convert undefined or null to object")
    ∧ (∀ colsA colsB, firstRowKeys A = .ok colsA → firstRowKeys B = .ok colsB →
        ((keysOf A).length ≠ (keysOf B).length ∨ colsA.length ≠ colsB.length →
          difference A B = .error "Invalid matrix dimensions for subtraction"
          ∧ piecewiseDivision A B = .error "Invalid matrix dimensions for subtraction")
        ∧ ((keysOf A).length = (keysOf B).length → colsA.length = colsB.length →
            (∀ ra ∈ keysOf A, ∃ bRow, lookupKey B ra = some bRow) →
            difference A B
              = .ok ((keysOf A).map (fun ra => (ra, colsA.map (fun ca =>
                  (ca, JNum.sub (rowGet ((lookupKey A ra).getD []) ca)
                         (rowGet ((lookupKey B ra).getD []) ca))))))
            ∧ piecewiseDivision A B
              = .ok ((keysOf A).map (fun ra => (ra, colsA.map (fun ca =>
                  (ca, JNum.div (rowGet ((lookupKey A ra).getD []) ca)
                         (rowGet ((lookupKey B ra).getD []) ca)))))))) := by
  refine ⟨?_, ?_, ?_⟩
  · intro hA
    subst hA
    exact ⟨rfl, rfl⟩
  · intro hA hB
    subst hB
    cases A with
    | nil => exact absurd rfl hA
    | cons a rest => exact ⟨rfl, rfl⟩
  · intro colsA colsB hcA hcB
    constructor
    · intro hne
      constructor
      · simp only [difference, hcA, hcB]
        rw [if_pos hne]
      · simp only [piecewiseDivision, hcA, hcB]
        rw [if_pos hne]
    · intro h1 h2 hcov
      have hno : ¬((keysOf A).length ≠ (keysOf B).length
          ∨ colsA.length ≠ colsB.length) :=
        fun h => h.elim (fun hh => hh h1) (fun hh => hh h2)
      constructor
      · simp only [difference, hcA, hcB]
        rw [if_neg hno]
        exact cellwiseRows_ok JNum.sub A B colsA (keysOf A) hcov
      · simp only [piecewiseDivision, hcA, hcB]
        rw [if_neg hno]
        exact cellwiseRows_ok JNum.div A B colsA (keysOf A) hcov

/-- Witness for the amended C5: matching 1×1 matrices give 5 − 2 = 3 and
5 / 2 = 2.5; a non-empty B with a different row count raises the
DimensionMismatch error; an empty B raises the TypeError instead. -/
theorem difference_division_count_check_witness :
    difference [(.str "r", [(.str "x", .num 5)])] [(.str "r", [(.str "x", .num 2)])]
      = .ok [(.str "r", [(.str "x", .num 3)])]
    ∧ piecewiseDivision [(.str "r", [(.str "x", .num 5)])] [(.str "r", [(.str "x", .num 2)])]
      = .ok [(.str "r", [(.str "x", .num (5/2))])]
    ∧ difference [(.str "r", [(.str "x", .num 5)])]
        [(.str "r", [(.str "x", .num 2)]), (.str "s", [(.str "x", .num 1)])]
      = .error "Invalid matrix dimensions for subtraction"
    ∧ difference [(.str "r", [(.str "x", .num 5)])] []
      = .error "TypeError: cannot convert undefined or null to object" := by
  have h := ((difference_division_count_check_and_cells
    [(.str "r", [(.str "x", .num 5)])] [(.str "r", [(.str "x", .num 2)])]).2.2
    [.str "x"] [.str "x"] rfl rfl).2 (by decide) (by decide)
    (by
      intro ra hra
      refine ⟨[(.str "x", .num 2)], ?_⟩
      simp only [keysOf, List.map_cons, List.map_nil, List.mem_singleton] at hra
      rw [hra]
      rfl)
  have herr := ((difference_division_count_check_and_cells
    [(.str "r", [(.str "x", .num 5)])]
    [(.str "r", [(.str "x", .num 2)]), (.str "s", [(.str "x", .num 1)])]).2.2
    [.str "x"] [.str "x"] rfl rfl).1 (by decide)
  have htype := (difference_division_count_check_and_cells
    [(.str "r", [(.str "x", .num 5)])] ([] : JMat)).2.1 (by decide) rfl
  refine ⟨h.1.trans ?_, h.2.trans ?_, herr.1, htype.1⟩
  · norm_num +decide [keysOf, lookupKey, rowGet, JNum.sub, Option.getD]
  · norm_num +decide [keysOf, lookupKey, rowGet, JNum.div, Option.getD]

/-- Claim C3, amended: `calculateRYG` never raises an UndefinedStatistic
error — with compatible shapes it returns the piecewise JS division of
the restricted aggregate matrix by the constraints matrix, so a nonzero
capacity cell holds load/capacity and a zero-capacity cell holds an
infinity (positive load) or NaN (zero load), silently. -/
theorem calculateRYG_silent_division (constraints : JData) (agg : JMat) (cm : JMat)
    (colsA colsB : List JVal)
    (hcm : cm = createMatrix constraints (.str "resource") (.str "period")
        (.str "constraint"))
    (hcA : firstRowKeys (crossCut agg (keysOf cm)) = .ok colsA)
    (hcB : firstRowKeys cm = .ok colsB)
    (h1 : (keysOf (crossCut agg (keysOf cm))).length = (keysOf cm).length)
    (h2 : colsA.length = colsB.length) :
    calculateRYG constraints agg
      = .ok ((keysOf (crossCut agg (keysOf cm))).map (fun ra =>
          (ra, colsA.map (fun ca =>
            (ca, JNum.div
              (rowGet ((lookupKey (crossCut agg (keysOf cm)) ra).getD []) ca)
              (rowGet ((lookupKey cm ra).getD []) ca))))))
    ∧ (∀ l c : ℚ, c ≠ 0 → (JNum.num l).div (.num c) = .num (l / c))
    ∧ (∀ l : ℚ, 0 < l → (JNum.num l).div (.num 0) = .posInf)
    ∧ (JNum.num 0).div (.num 0) = .nan := by
  refine ⟨?_, ?_, ?_, by simp [JNum.div]⟩
  · have hcov : ∀ ra ∈ keysOf (crossCut agg (keysOf cm)),
        ∃ bRow, lookupKey cm ra = some bRow := by
      intro ra hra
      exact exists_lookupKey_keysOf cm ra (crossCut_keys agg (keysOf cm) ra hra)
    have hno : ¬((keysOf (crossCut agg (keysOf cm))).length ≠ (keysOf cm).length
        ∨ colsA.length ≠ colsB.length) :=
      fun h => h.elim (fun hh => hh h1) (fun hh => hh h2)
    show calculateRYG constraints agg = _
    unfold calculateRYG
    rw [← hcm]
    simp only [piecewiseDivision, hcA, hcB]
    rw [if_neg hno]
    exact cellwiseRows_ok JNum.div (crossCut agg (keysOf cm)) cm
      colsA (keysOf (crossCut agg (keysOf cm))) hcov
  · intro l c hc
    simp [JNum.div, hc]
  · intro l hl
    simp [JNum.div, hl, ne_of_gt hl]

/-- Witness for the amended C3: load 110 over capacity 100 yields the
ratio 1.1. -/
theorem calculateRYG_silent_division_witness :
    calculateRYG fixConsHundred fixAgg = .ok [(.str "R", [(.str "P", .num (11/10))])] := by
  have h := calculateRYG_silent_division fixConsHundred fixAgg
    (createMatrix fixConsHundred (.str "resource") (.str "period") (.str "constraint"))
    [.str "P"] [.str "P"] rfl
    (by norm_num +decide [createMatrix, cmStep, matAddAt, gvStep, getVariations, setKey,
      lookupKey, keysOf, getV, crossCut, fixConsHundred, fixAgg, JVal.toJNum, JNum.add,
      rowGet, Option.getD, List.foldl, List.filter, firstRowKeys])
    (by norm_num +decide [createMatrix, cmStep, matAddAt, gvStep, getVariations, setKey,
      lookupKey, keysOf, getV, crossCut, fixConsHundred, fixAgg, JVal.toJNum, JNum.add,
      rowGet, Option.getD, List.foldl, List.filter, firstRowKeys])
    (by norm_num +decide [createMatrix, cmStep, matAddAt, gvStep, getVariations, setKey,
      lookupKey, keysOf, getV, crossCut, fixConsHundred, fixAgg, JVal.toJNum, JNum.add,
      rowGet, Option.getD, List.foldl, List.filter, firstRowKeys])
    rfl
  refine h.1.trans ?_
  norm_num +decide [createMatrix, cmStep, matAddAt, gvStep, getVariations, setKey,
    lookupKey, keysOf, getV, crossCut, fixConsHundred, fixAgg, JVal.toJNum, JNum.add,
    JNum.div, rowGet, Option.getD, List.foldl, List.filter, firstRowKeys]

/-! ## normInverse lemmas -/

theorem zTable_chain : List.Chain' (· < ·) (zTable.map Prod.fst) := by
  simp only [zTable, List.map_cons, List.map_nil, List.chain'_cons, List.chain'_singleton]
  norm_num

theorem zTable_sorted : (zTable.map Prod.fst).Pairwise (· < ·) :=
  List.chain'_iff_pairwise.mp zTable_chain

theorem zTable_bounds : ∀ k ∈ zTable.map Prod.fst, (0:ℚ) < k ∧ k < 1 := by
  simp only [zTable, List.map_cons, List.map_nil, List.forall_mem_cons, List.forall_mem_nil]
  norm_num

theorem lowerScan_eq_filter (p : ℚ) :
    ∀ (l : List (ℚ × ℚ)) (a : ℚ),
      l.foldl (fun acc k => if k.1 ≤ p ∧ acc < k.1 then k.1 else acc) a
        = ((l.map Prod.fst).filter (fun k => decide (k ≤ p))).foldl max a := by
  intro l
  induction l with
  | nil => intro a; rfl
  | cons k rest ih =>
      intro a
      rw [List.foldl_cons, List.map_cons, List.filter_cons]
      by_cases h1 : k.1 ≤ p
      · have hstep : (if k.1 ≤ p ∧ a < k.1 then k.1 else a) = max a k.1 := by
          by_cases h2 : a < k.1
          · rw [if_pos ⟨h1, h2⟩, max_eq_right (le_of_lt h2)]
          · rw [if_neg (fun hh => h2 hh.2), max_eq_left (le_of_not_lt h2)]
        rw [hstep, if_pos (show decide (k.1 ≤ p) = true by simpa using h1),
          List.foldl_cons, ih]
      · have hstep : (if k.1 ≤ p ∧ a < k.1 then k.1 else a) = a :=
          if_neg (fun hh => h1 hh.1)
        rw [hstep, if_neg (show ¬ decide (k.1 ≤ p) = true by simpa using h1), ih]

theorem higherScan_eq_filter (p : ℚ) :
    ∀ (l : List (ℚ × ℚ)) (a : ℚ),
      l.foldl (fun acc k => if p ≤ k.1 ∧ k.1 < acc then k.1 else acc) a
        = ((l.map Prod.fst).filter (fun k => decide (p ≤ k))).foldl min a := by
  intro l
  induction l with
  | nil => intro a; rfl
  | cons k rest ih =>
      intro a
      rw [List.foldl_cons, List.map_cons, List.filter_cons]
      by_cases h1 : p ≤ k.1
      · have hstep : (if p ≤ k.1 ∧ k.1 < a then k.1 else a) = min a k.1 := by
          by_cases h2 : k.1 < a
          · rw [if_pos ⟨h1, h2⟩, min_eq_right (le_of_lt h2)]
          · rw [if_neg (fun hh => h2 hh.2), min_eq_left (le_of_not_lt h2)]
        rw [hstep, if_pos (show decide (p ≤ k.1) = true by simpa using h1),
          List.foldl_cons, ih]
      · have hstep : (if p ≤ k.1 ∧ k.1 < a then k.1 else a) = a :=
          if_neg (fun hh => h1 hh.1)
        rw [hstep, if_neg (show ¬ decide (p ≤ k.1) = true by simpa using h1), ih]

theorem foldl_max_le_of : ∀ (l : List ℚ) (a b : ℚ), a ≤ b → (∀ x ∈ l, x ≤ b) →
    l.foldl max a ≤ b := by
  intro l
  induction l with
  | nil => intro a b h _; simpa using h
  | cons y rest ih =>
      intro a b h h2
      rw [List.foldl_cons]
      exact ih _ b (max_le h (h2 y (List.mem_cons_self y rest)))
        (fun x hx => h2 x (List.mem_cons_of_mem y hx))

theorem le_foldl_max_init : ∀ (l : List ℚ) (a : ℚ), a ≤ l.foldl max a := by
  intro l
  induction l with
  | nil => intro a; simp
  | cons y rest ih =>
      intro a
      rw [List.foldl_cons]
      exact le_trans (le_max_left a y) (ih (max a y))

theorem le_foldl_max_mem : ∀ (l : List ℚ) (a x : ℚ), x ∈ l → x ≤ l.foldl max a := by
  intro l
  induction l with
  | nil => intro a x hx; simp at hx
  | cons y rest ih =>
      intro a x hx
      rw [List.foldl_cons]
      rcases List.mem_cons.mp hx with rfl | hx
      · exact le_trans (le_max_right a x) (le_foldl_max_init rest _)
      · exact ih _ x hx

theorem foldl_max_eq (l : List ℚ) (a x : ℚ) (hx : x ∈ l) (hub : ∀ y ∈ l, y ≤ x)
    (ha : a ≤ x) : l.foldl max a = x :=
  le_antisymm (foldl_max_le_of l a x ha hub) (le_foldl_max_mem l a x hx)

theorem foldl_min_ge_of : ∀ (l : List ℚ) (a b : ℚ), b ≤ a → (∀ x ∈ l, b ≤ x) →
    b ≤ l.foldl min a := by
  intro l
  induction l with
  | nil => intro a b h _; simpa using h
  | cons y rest ih =>
      intro a b h h2
      rw [List.foldl_cons]
      exact ih _ b (le_min h (h2 y (List.mem_cons_self y rest)))
        (fun x hx => h2 x (List.mem_cons_of_mem y hx))

theorem foldl_min_le_init : ∀ (l : List ℚ) (a : ℚ), l.foldl min a ≤ a := by
  intro l
  induction l with
  | nil => intro a; simp
  | cons y rest ih =>
      intro a
      rw [List.foldl_cons]
      exact le_trans (ih (min a y)) (min_le_left a y)

theorem foldl_min_le_mem : ∀ (l : List ℚ) (a x : ℚ), x ∈ l → l.foldl min a ≤ x := by
  intro l
  induction l with
  | nil => intro a x hx; simp at hx
  | cons y rest ih =>
      intro a x hx
      rw [List.foldl_cons]
      rcases List.mem_cons.mp hx with rfl | hx
      · exact le_trans (foldl_min_le_init rest _) (min_le_right a x)
      · exact ih _ x hx

theorem foldl_min_eq (l : List ℚ) (a x : ℚ) (hx : x ∈ l) (hlb : ∀ y ∈ l, x ≤ y)
    (ha : x ≤ a) : l.foldl min a = x :=
  le_antisymm (foldl_min_le_mem l a x hx) (foldl_min_ge_of l a x ha hlb)

theorem lookupKey_append_right {κ α : Type} [DecidableEq κ] :
    ∀ (l1 l2 : List (κ × α)) (k : κ), k ∉ l1.map Prod.fst →
      lookupKey (l1 ++ l2) k = lookupKey l2 k := by
  intro l1
  induction l1 with
  | nil => intro l2 k _; rfl
  | cons e rest ih =>
      intro l2 k hk
      have h1 : ¬ e.1 = k := by
        intro h
        exact hk (by simp [h])
      rw [List.cons_append]
      show (if e.1 = k then some e.2 else lookupKey (rest ++ l2) k) = _
      rw [if_neg h1, ih l2 k (fun h => hk (by simp [h]))]


/-- Claim C6: a probability that is an exact key of the z-score table
returns its tabulated z-score, and a probability strictly between two
adjacent table entries returns the linear interpolation between their
z-scores. -/
theorem normInverse_exact_and_interpolated :
    (∀ p z : ℚ, lookupKey zTable p = some z → normInverse p = .num z)
    ∧ (∀ (pre post : List (ℚ × ℚ)) (pl zl ph zh p : ℚ),
        zTable = pre ++ (pl, zl) :: (ph, zh) :: post →
        pl < p → p < ph →
        normInverse p = .num (zl + (zh - zl) * ((p - pl) / (ph - pl)))) := by
  constructor
  · intro p z h
    have hmem : p ∈ zTable.map Prod.fst := lookupKey_mem_keys zTable p z h
    simp only [normInverse]
    rw [if_pos hmem, h]
    rfl
  · intro pre post pl zl ph zh p hdec hl hh
    have hsorted := zTable_sorted
    rw [hdec] at hsorted
    simp only [List.map_append, List.map_cons] at hsorted
    rcases List.pairwise_append.mp hsorted with ⟨hpreP, hrestP, hcross⟩
    rcases List.pairwise_cons.mp hrestP with ⟨hplAll, hrest2⟩
    rcases List.pairwise_cons.mp hrest2 with ⟨hpostgt, _⟩
    have hplph : pl < ph := hplAll ph (List.mem_cons_self ph _)
    have hprelt : ∀ x ∈ pre.map Prod.fst, x < pl :=
      fun x hx => hcross x hx pl (List.mem_cons_self pl _)
    have hplmem : pl ∈ zTable.map Prod.fst := by rw [hdec]; simp
    have hphmem : ph ∈ zTable.map Prod.fst := by rw [hdec]; simp
    have hpl0 : (0:ℚ) < pl := (zTable_bounds pl hplmem).1
    have hph1 : ph < 1 := (zTable_bounds ph hphmem).2
    have hkeys : zTable.map Prod.fst
        = pre.map Prod.fst ++ pl :: ph :: post.map Prod.fst := by
      rw [hdec]
      simp
    have hnot : p ∉ zTable.map Prod.fst := by
      rw [hkeys]
      intro hmem
      rcases List.mem_append.mp hmem with hmem | hmem
      · have := hprelt p hmem
        linarith
      · rcases List.mem_cons.mp hmem with rfl | hmem
        · exact lt_irrefl p hl
        · rcases List.mem_cons.mp hmem with rfl | hmem
          · exact lt_irrefl p hh
          · have := hpostgt p hmem
            linarith
    have hlow : lowerScan p = pl := by
      unfold lowerScan
      rw [lowerScan_eq_filter p zTable 0]
      apply foldl_max_eq
      · exact List.mem_filter.mpr ⟨hplmem, by simpa using le_of_lt hl⟩
      · intro y hy
        rcases List.mem_filter.mp hy with ⟨hyk, hyle⟩
        have hyp : y ≤ p := by simpa using hyle
        rw [hkeys] at hyk
        rcases List.mem_append.mp hyk with hmem | hmem
        · exact le_of_lt (hprelt y hmem)
        · rcases List.mem_cons.mp hmem with rfl | hmem
          · exact le_refl y
          · rcases List.mem_cons.mp hmem with rfl | hmem
            · linarith
            · have := hpostgt y hmem
              linarith
      · exact le_of_lt hpl0
    have hhigh : higherScan p = ph := by
      unfold higherScan
      rw [higherScan_eq_filter p zTable 1]
      apply foldl_min_eq
      · exact List.mem_filter.mpr ⟨hphmem, by simpa using le_of_lt hh⟩
      · intro y hy
        rcases List.mem_filter.mp hy with ⟨hyk, hyge⟩
        have hyp : p ≤ y := by simpa using hyge
        rw [hkeys] at hyk
        rcases List.mem_append.mp hyk with hmem | hmem
        · have := hprelt y hmem
          linarith
        · rcases List.mem_cons.mp hmem with rfl | hmem
          · linarith
          · rcases List.mem_cons.mp hmem with rfl | hmem
            · exact le_refl y
            · exact le_of_lt (hpostgt y hmem)
      · exact le_of_lt hph1
    have hpreNoPl : pl ∉ pre.map Prod.fst :=
      fun hmem => lt_irrefl pl (hprelt pl hmem)
    have hlookl : lookupKey zTable pl = some zl := by
      rw [hdec, lookupKey_append_right pre _ pl hpreNoPl]
      simp [lookupKey]
    have hphNoPre : ph ∉ pre.map Prod.fst := by
      intro hmem
      have := hprelt ph hmem
      linarith
    have hlookh : lookupKey zTable ph = some zh := by
      rw [hdec, lookupKey_append_right pre _ ph hphNoPre]
      simp [lookupKey, ne_of_lt hplph]
    simp only [normInverse]
    rw [if_neg hnot, hlow, hhigh, hlookl, hlookh]

/-- Witness for C6: the exact hits 0.5 → 0.00 and 0.985 → 2.17, and the
interpolation 0.125 → −1.15 between the 0.12 and 0.13 entries. -/
theorem normInverse_values_witness :
    normInverse 0.5 = .num 0
    ∧ normInverse 0.985 = .num 2.17
    ∧ normInverse 0.125 = .num (-1.15) := by
  obtain ⟨h1, h2⟩ := normInverse_exact_and_interpolated
  refine ⟨h1 0.5 0 (by norm_num [lookupKey, zTable]),
          h1 0.985 2.17 (by norm_num [lookupKey, zTable]), ?_⟩
  have h3 := h2 (zTable.take 19) (zTable.drop 21) 0.12 (-1.17) 0.13 (-1.13) 0.125
    rfl (by norm_num) (by norm_num)
  rw [h3]
  norm_num

end SupplyChain
